import Mathlib

/-!
# Verification of the vulpini proxy against its specification

Shallow embedding of the core components of the `vulpini` multi-protocol
proxy (source: `src/vulpini/src/`), together with theorems settling the
frozen claims about the node pool (`ip_manager/mod.rs`), the traffic
analyzer (`traffic_analyzer/mod.rs`), the anomaly detector
(`anomaly_detector/mod.rs`) and the HTTP protocol helpers
(`protocol/http.rs`).

Modelling conventions:
* `std::time::Instant` and `std::time::Duration` are modelled as `Nat`
  nanoseconds.  `Instant` subtraction (`duration_since`) saturates at zero,
  matching `Nat` subtraction.
* `f64` quantities (latency averages, rates, thresholds) are modelled as
  `ℚ`.  The only operations performed on them in the source are additions,
  multiplications, divisions and comparisons of small values.
* `DashMap<String, _>` is modelled as an association list
  `List (String × _)` with first-match lookup, and
  `HashMap<AnomalyType, Instant>` as a function
  `AnomalyType → Option Nat`.
* `rand::random_range(0..len)` is modelled by an explicit oracle argument
  `r : Nat`, used as `r % len`.
-/

namespace Vulpini

/-! ## Node pool (`src/vulpini/src/ip_manager/mod.rs`) -/

/-- `HealthStatus` from `ip_manager/mod.rs`. -/
inductive HealthStatus where
  | Healthy
  | Degraded
  | Unhealthy
  | Unknown
deriving DecidableEq, Repr

/-- `IPInfo` from `ip_manager/mod.rs`: immutable descriptor of an upstream
proxy endpoint. -/
structure IPInfo where
  address : String
  port : Nat
  country : Option String
  isp : Option String
deriving DecidableEq, Repr

/-- `UpdateIPRequest` from `ip_manager/mod.rs`. -/
structure UpdateIPRequest where
  address : String
  port : Option Nat
  country : Option String
  isp : Option String
  enabled : Option Bool
deriving DecidableEq, Repr

/-- `IPStats` from `ip_manager/mod.rs` (per-node running statistics).
`avg_latency` is a duration (nanoseconds) modelled in `ℚ` because the
source computes the running mean in `f64`. -/
structure IPStats where
  total_uses : Nat
  total_failures : Nat
  avg_latency : ℚ
  last_failure : Option Nat
deriving DecidableEq, Repr

/-- `NodeState` from `ip_manager/mod.rs` (per-node mutable state). -/
structure NodeState where
  enabled : Bool
  health_status : HealthStatus
  use_count : Nat
  success_count : Nat
  failure_count : Nat
  latency : Nat
  last_used : Nat
deriving DecidableEq, Repr

/-- `NodeState::new()`: the default per-node state (latency 100 ms). -/
def NodeState.new : NodeState :=
  { enabled := true
    health_status := HealthStatus.Unknown
    use_count := 0
    success_count := 0
    failure_count := 0
    latency := 100000000
    last_used := 0 }

/-- `IPStats` initial value used by `IPManager::new` / `add_node`
(avg latency 100 ms, no uses). -/
def IPStats.init : IPStats :=
  { total_uses := 0
    total_failures := 0
    avg_latency := 100000000
    last_failure := none }

/-- The `IPManager` state: pool (insertion order), per-address stats and
node-state maps, round-robin cursor and the configured strategy tag. -/
structure IPManager where
  ip_pool : List IPInfo
  ip_stats : List (String × IPStats)
  node_states : List (String × NodeState)
  current_index : Nat
  strategy : String
deriving DecidableEq, Repr

/-- `IPManager::new(config)`: one pool entry plus fresh stats/state per
configured IP. -/
def IPManager.new (ips : List IPInfo) (strategy : String) : IPManager :=
  { ip_pool := ips
    ip_stats := ips.map (fun ip => (ip.address, IPStats.init))
    node_states := ips.map (fun ip => (ip.address, NodeState.new))
    current_index := 0
    strategy := strategy }

/-- Update the first entry of an association list whose key matches
(`DashMap::get_mut` followed by a mutation). -/
def updateAssoc (k : String) (f : α → α) : List (String × α) → List (String × α)
  | [] => []
  | (k', v) :: rest =>
      if k' = k then (k', f v) :: rest else (k', v) :: updateAssoc k f rest

/-- Association-list lookup (`DashMap::get`). -/
def lookupAssoc (k : String) : List (String × α) → Option α
  | [] => none
  | (k', v) :: rest => if k' = k then some v else lookupAssoc k rest

/-- `IPManager::record_result(ip, success, latency)` from
`ip_manager/mod.rs` lines 283–309, with the ambient `Instant::now()` passed
explicitly as `now`.  Note that the source increments
`NodeState.use_count` only in the `success` branch. -/
def record_result (m : IPManager) (ip : String) (success : Bool)
    (latency : Nat) (now : Nat) : IPManager :=
  match lookupAssoc ip m.ip_stats with
  | none => m
  | some stats =>
      let n : ℚ := (stats.total_uses : ℚ) + 1
      let stats1 : IPStats :=
        { stats with
          total_uses := stats.total_uses + 1
          avg_latency := (stats.avg_latency * (n - 1) + (latency : ℚ)) / n }
      if success then
        { m with
          ip_stats := updateAssoc ip (fun _ => stats1) m.ip_stats
          node_states := updateAssoc ip (fun st =>
            { st with
              success_count := st.success_count + 1
              use_count := st.use_count + 1
              latency := latency
              last_used := now }) m.node_states }
      else
        let stats2 : IPStats :=
          { stats1 with
            total_failures := stats1.total_failures + 1
            last_failure := some now }
        { m with
          ip_stats := updateAssoc ip (fun _ => stats2) m.ip_stats
          node_states := updateAssoc ip (fun st =>
            { st with failure_count := st.failure_count + 1 }) m.node_states }

/-- Availability predicate used by all selection strategies:
`state.enabled && matches!(health_status, Healthy | Degraded | Unknown)`
(a node with no recorded state is unavailable). -/
def nodeAvailable (m : IPManager) (ip : IPInfo) : Bool :=
  match lookupAssoc ip.address m.node_states with
  | some st =>
      st.enabled &&
        (match st.health_status with
         | HealthStatus.Healthy => true
         | HealthStatus.Degraded => true
         | HealthStatus.Unknown => true
         | HealthStatus.Unhealthy => false)
  | none => false

/-- `self.ip_pool[0]`, the fallback node.  Every selector only reaches this
indexing with a non-empty pool (`select_ip` returns early on an empty
pool), so the default value is never observed in guarded uses. -/
def poolFirst (m : IPManager) : IPInfo :=
  m.ip_pool.headD { address := "", port := 0, country := none, isp := none }

/-- Rust `Iterator::min_by`: the first element that is minimal for the
comparator (the accumulator is replaced only when the candidate compares
strictly `Less`). -/
def rustMinBy (c : α → α → Ordering) : List α → Option α
  | [] => none
  | x :: rest =>
      some (rest.foldl (fun acc y => if c y acc = Ordering.lt then y else acc) x)

/-- Rust `Iterator::min_by_key` with a `Nat` key. -/
def rustMinByKey (key : α → Nat) (l : List α) : Option α :=
  rustMinBy (fun a b => compare (key a) (key b)) l

/-- `Ordering` of two rationals, the model of `f64::partial_cmp` on the
(finite, non-NaN) values occurring in the pool. -/
def qcmp (a b : ℚ) : Ordering :=
  if a < b then Ordering.lt else if a = b then Ordering.eq else Ordering.gt

/-- `IPManager::select_random`, with the `rand::random_range(0..len)`
draw supplied by the oracle `r` (reduced mod the number of candidates). -/
def select_random (m : IPManager) (r : Nat) : IPInfo :=
  if m.ip_pool.filter (fun ip => nodeAvailable m ip) = [] then poolFirst m
  else
    (m.ip_pool.filter (fun ip => nodeAvailable m ip)).getD
      (r % (m.ip_pool.filter (fun ip => nodeAvailable m ip)).length) (poolFirst m)

/-- The probe loop of `IPManager::select_round_robin`
(`for _ in 0..len`): advance the cursor, return the node there if
available, otherwise keep probing; when the budget is exhausted fall back
to `ip_pool[0]` (the cursor keeps its last value). -/
def selectRoundRobinLoop (m : IPManager) : Nat → Nat → IPInfo × Nat
  | 0, cur => (poolFirst m, cur)
  | fuel + 1, cur =>
      let idx := (cur + 1) % m.ip_pool.length
      match m.ip_pool[idx]? with
      | some ip =>
          if nodeAvailable m ip then (ip, idx) else selectRoundRobinLoop m fuel idx
      | none => selectRoundRobinLoop m fuel idx

/-- `IPManager::select_round_robin` (also returns the updated
`current_index`). -/
def select_round_robin (m : IPManager) : IPInfo × Nat :=
  selectRoundRobinLoop m m.ip_pool.length m.current_index

/-- `IPManager::select_least_used`:
`filter(available).min_by_key(use_count).unwrap_or(&ip_pool[0])`. -/
def select_least_used (m : IPManager) : IPInfo :=
  match rustMinByKey
      (fun ip =>
        match lookupAssoc ip.address m.node_states with
        | some s => s.use_count
        | none => 0)
      (m.ip_pool.filter (fun ip => nodeAvailable m ip)) with
  | some ip => ip
  | none => poolFirst m

/-- The success rate computed by `select_performance_based`:
`success_count / (success_count + failure_count + 1)`. -/
def successRateQ (st : NodeState) : ℚ :=
  (st.success_count : ℚ) / ((st.success_count : ℚ) + (st.failure_count : ℚ) + 1)

/-- Success rate of a pool node as used by the comparator (0.0 when the
node has no recorded state). -/
def codeRate (m : IPManager) (ip : IPInfo) : ℚ :=
  match lookupAssoc ip.address m.node_states with
  | some s => successRateQ s
  | none => 0

/-- Latency of a pool node as used by the comparator (default 100 ms when
the node has no recorded state). -/
def codeLat (m : IPManager) (ip : IPInfo) : Nat :=
  match lookupAssoc ip.address m.node_states with
  | some s => s.latency
  | none => 100000000

/-- The comparator of `select_performance_based`: compare success rates
reversed (so that a higher rate is "smaller"), break ties by latency. -/
def perfCmp (m : IPManager) (a b : IPInfo) : Ordering :=
  match qcmp (codeRate m b) (codeRate m a) with
  | Ordering.gt => Ordering.gt
  | Ordering.lt => Ordering.lt
  | Ordering.eq => compare (codeLat m a) (codeLat m b)

/-- `IPManager::select_performance_based` (the `healthy_ips` vector is
inlined). -/
def select_performance_based (m : IPManager) : IPInfo :=
  if m.ip_pool.filter (fun ip => nodeAvailable m ip) = [] then poolFirst m
  else
    match rustMinBy (perfCmp m) (m.ip_pool.filter (fun ip => nodeAvailable m ip)) with
    | some best => best
    | none => poolFirst m

/-- `IPManager::select_ip` (lines 137–151): `None` on an empty pool, else
dispatch on the strategy tag (the `match … as_str()` is this if-chain;
unknown tags fall back to round-robin).  The second component is the
resulting `current_index`. -/
def select_ip (m : IPManager) (r : Nat) : Option IPInfo × Nat :=
  if m.ip_pool = [] then (none, m.current_index)
  else if m.strategy = "random" then (some (select_random m r), m.current_index)
  else if m.strategy = "roundrobin" then
    let p := select_round_robin m
    (some p.1, p.2)
  else if m.strategy = "leastused" then (some (select_least_used m), m.current_index)
  else if m.strategy = "performance" then (some (select_performance_based m), m.current_index)
  else
    let p := select_round_robin m
    (some p.1, p.2)

/-- `IPManager::update_node` (lines 242–267): patch port/country/isp on
the `IPInfo` (a `None` field keeps the old value, the address is copied
from the old record), patch `enabled` on the `NodeState`; `false` iff the
address is not in the pool. -/
def update_node (m : IPManager) (address : String) (req : UpdateIPRequest) :
    Bool × IPManager :=
  match m.ip_pool.findIdx? (fun ip => ip.address = address) with
  | none => (false, m)
  | some idx =>
      let pool1 :=
        if req.port.isSome || req.country.isSome || req.isp.isSome then
          match m.ip_pool[idx]? with
          | some old =>
              m.ip_pool.set idx
                { address := old.address
                  port := match req.port with | some p => p | none => old.port
                  country := match req.country with | some c => some c | none => old.country
                  isp := match req.isp with | some i => some i | none => old.isp }
          | none => m.ip_pool
        else m.ip_pool
      let states1 :=
        match req.enabled with
        | some e => updateAssoc address (fun st => { st with enabled := e }) m.node_states
        | none => m.node_states
      (true, { m with ip_pool := pool1, node_states := states1 })

/-- A one-node pool used as the concrete failing input for the `use_count`
and health-reclassification claims. -/
def mgrOne : IPManager :=
  IPManager.new [{ address := "10.0.0.1", port := 1080, country := none, isp := none }] "roundrobin"

/-- **C1.** The spec demands `success_count + failure_count ≤ use_count`
(`use_count` incremented on every attempt).  The source increments
`use_count` only on success: after a single failed
`record_result("10.0.0.1", false, 50ms)` on a fresh node the node state has
`success_count + failure_count = 1` but `use_count = 0`, violating the
invariant the spec fixes. -/
theorem record_result_use_count_bug :
    ∃ st, lookupAssoc "10.0.0.1"
        (record_result mgrOne "10.0.0.1" false 50000000 1000).node_states = some st ∧
      ¬ (st.success_count + st.failure_count ≤ st.use_count) := by
  refine ⟨{ NodeState.new with failure_count := 1 }, by decide, by decide⟩

/-- Feed `k` failures (50 ms apart) to the one-node pool. -/
def feedFailures : Nat → IPManager
  | 0 => mgrOne
  | k + 1 => record_result (feedFailures k) "10.0.0.1" false 50000000 (k * 50000000)

/-- **C2.** The spec demands health reclassification after
≥ HEALTH_MIN_SAMPLES (5) observations (failure_rate ≥ 0.6 ⇒ Unhealthy).
The source never writes `health_status` after initialisation: after five
recorded failures (failure rate 1.0) the node's health is still `Unknown`,
not `Unhealthy`. -/
theorem record_result_no_health_reclassification :
    ∃ st, lookupAssoc "10.0.0.1" (feedFailures 5).node_states = some st ∧
      st.failure_count = 5 ∧ st.success_count = 0 ∧
      st.health_status = HealthStatus.Unknown ∧
      st.health_status ≠ HealthStatus.Unhealthy := by
  refine ⟨{ NodeState.new with failure_count := 5 }, by decide, by decide, by decide,
    by decide, by decide⟩

/-! ### Selection totality and fallback (claim C4) -/

theorem poolFirst_mem (m : IPManager) (h : m.ip_pool ≠ []) : poolFirst m ∈ m.ip_pool := by
  cases hp : m.ip_pool with
  | nil => exact absurd hp h
  | cons a t => simp [poolFirst, hp]

theorem foldlPick_mem (c : α → α → Ordering) (l : List α) :
    ∀ a : α, l.foldl (fun acc y => if c y acc = Ordering.lt then y else acc) a ∈ a :: l := by
  induction l with
  | nil => intro a; simp
  | cons b t ih =>
      intro a
      simp only [List.foldl_cons]
      by_cases hc : c b a = Ordering.lt
      · simp only [if_pos hc]
        have h2 := ih b
        rw [List.mem_cons] at h2
        rcases h2 with h2 | h2
        · rw [h2]; exact List.mem_cons_of_mem a (List.mem_cons_self b t)
        · exact List.mem_cons_of_mem a (List.mem_cons_of_mem b h2)
      · simp only [if_neg hc]
        have h2 := ih a
        rw [List.mem_cons] at h2
        rcases h2 with h2 | h2
        · rw [h2]; exact List.mem_cons_self a _
        · exact List.mem_cons_of_mem a (List.mem_cons_of_mem b h2)

theorem rustMinBy_mem (c : α → α → Ordering) {l : List α} {x : α}
    (h : rustMinBy c l = some x) : x ∈ l := by
  cases l with
  | nil => simp [rustMinBy] at h
  | cons a t =>
      simp only [rustMinBy, Option.some.injEq] at h
      rw [← h]
      exact foldlPick_mem c t a

theorem rrLoop_mem (m : IPManager) (h : m.ip_pool ≠ []) :
    ∀ fuel cur, (selectRoundRobinLoop m fuel cur).1 ∈ m.ip_pool := by
  intro fuel
  induction fuel with
  | zero => intro cur; simpa [selectRoundRobinLoop] using poolFirst_mem m h
  | succ f ih =>
      intro cur
      simp only [selectRoundRobinLoop]
      cases hg : m.ip_pool[(cur + 1) % m.ip_pool.length]? with
      | none => exact ih _
      | some ip =>
          by_cases ha : nodeAvailable m ip
          · simp only [ha, if_true]
            exact List.getElem?_mem hg
          · simp only [ha, Bool.false_eq_true, if_false]
            exact ih _

theorem rrLoop_fallback (m : IPManager)
    (hall : ∀ ip ∈ m.ip_pool, nodeAvailable m ip = false) :
    ∀ fuel cur, (selectRoundRobinLoop m fuel cur).1 = poolFirst m := by
  intro fuel
  induction fuel with
  | zero => intro cur; rfl
  | succ f ih =>
      intro cur
      simp only [selectRoundRobinLoop]
      cases hg : m.ip_pool[(cur + 1) % m.ip_pool.length]? with
      | none => exact ih _
      | some ip =>
          have hna := hall ip (List.getElem?_mem hg)
          simp only [hna, Bool.false_eq_true, if_false]
          exact ih _

theorem select_random_mem (m : IPManager) (r : Nat) (h : m.ip_pool ≠ []) :
    select_random m r ∈ m.ip_pool := by
  unfold select_random
  by_cases hh : m.ip_pool.filter (fun ip => nodeAvailable m ip) = []
  · simp only [hh, if_true]
    exact poolFirst_mem m h
  · simp only [hh, if_false]
    have hl : 0 < (m.ip_pool.filter (fun ip => nodeAvailable m ip)).length :=
      List.length_pos.mpr hh
    have hlt := Nat.mod_lt r hl
    rw [List.getD_eq_getElem?_getD, List.getElem?_eq_getElem hlt]
    exact (List.mem_filter.mp (List.getElem_mem hlt)).1

theorem select_least_used_mem (m : IPManager) (h : m.ip_pool ≠ []) :
    select_least_used m ∈ m.ip_pool := by
  unfold select_least_used
  cases hmin : rustMinByKey
      (fun ip =>
        match lookupAssoc ip.address m.node_states with
        | some s => s.use_count
        | none => 0)
      (m.ip_pool.filter (fun ip => nodeAvailable m ip)) with
  | none => exact poolFirst_mem m h
  | some ip =>
      exact (List.mem_filter.mp (rustMinBy_mem _ hmin)).1

theorem select_performance_mem (m : IPManager) (h : m.ip_pool ≠ []) :
    select_performance_based m ∈ m.ip_pool := by
  unfold select_performance_based
  by_cases hh : m.ip_pool.filter (fun ip => nodeAvailable m ip) = []
  · simp only [hh, if_true]
    exact poolFirst_mem m h
  · simp only [hh, if_false]
    cases hmin : rustMinBy (perfCmp m) (m.ip_pool.filter (fun ip => nodeAvailable m ip)) with
    | none => exact poolFirst_mem m h
    | some best => exact (List.mem_filter.mp (rustMinBy_mem _ hmin)).1

theorem filter_avail_nil (m : IPManager)
    (hall : ∀ ip ∈ m.ip_pool, nodeAvailable m ip = false) :
    m.ip_pool.filter (fun ip => nodeAvailable m ip) = [] := by
  rw [List.filter_eq_nil_iff]
  intro ip hip
  simp [hall ip hip]

/-- **C4.** `select_ip()` returns `None` iff the pool is empty; on a
non-empty pool it returns `Some` node of the pool for every strategy tag
(known or unknown), and when no node satisfies the availability predicate
it falls back to the first node in insertion order (`ip_pool[0]`). -/
theorem select_ip_none_iff_empty_with_fallback (m : IPManager) (r : Nat) :
    ((select_ip m r).1 = none ↔ m.ip_pool = []) ∧
    (m.ip_pool ≠ [] → ∃ ip ∈ m.ip_pool, (select_ip m r).1 = some ip) ∧
    (m.ip_pool ≠ [] → (∀ ip ∈ m.ip_pool, nodeAvailable m ip = false) →
      (select_ip m r).1 = some (poolFirst m)) := by
  by_cases hp : m.ip_pool = []
  · refine ⟨by simp [select_ip, hp], fun h => absurd hp h, fun h => absurd hp h⟩
  · have hsome : ∃ ip ∈ m.ip_pool, (select_ip m r).1 = some ip := by
      unfold select_ip
      simp only [hp, if_false]
      by_cases h1 : m.strategy = "random"
      · simp only [h1, if_true]
        exact ⟨select_random m r, select_random_mem m r hp, rfl⟩
      · simp only [h1, if_false]
        by_cases h2 : m.strategy = "roundrobin"
        · simp only [h2, if_true]
          exact ⟨(select_round_robin m).1, rrLoop_mem m hp _ _, rfl⟩
        · simp only [h2, if_false]
          by_cases h3 : m.strategy = "leastused"
          · simp only [h3, if_true]
            exact ⟨select_least_used m, select_least_used_mem m hp, rfl⟩
          · simp only [h3, if_false]
            by_cases h4 : m.strategy = "performance"
            · simp only [h4, if_true]
              exact ⟨select_performance_based m, select_performance_mem m hp, rfl⟩
            · simp only [h4, if_false]
              exact ⟨(select_round_robin m).1, rrLoop_mem m hp _ _, rfl⟩
    refine ⟨⟨fun hn => ?_, fun he => absurd he hp⟩, fun _ => hsome, fun _ hall => ?_⟩
    · obtain ⟨ip, _, hip⟩ := hsome
      rw [hip] at hn
      exact absurd hn (by simp)
    · have hfil := filter_avail_nil m hall
      have hrand : select_random m r = poolFirst m := by
        unfold select_random
        simp only [hfil, if_true]
      have hlu : select_least_used m = poolFirst m := by
        unfold select_least_used
        rw [hfil]
        rfl
      have hperf : select_performance_based m = poolFirst m := by
        unfold select_performance_based
        simp only [hfil, if_true]
      have hrr : (select_round_robin m).1 = poolFirst m := rrLoop_fallback m hall _ _
      unfold select_ip
      simp only [hp, if_false]
      by_cases h1 : m.strategy = "random"
      · simp only [h1, if_true, hrand]
      · simp only [h1, if_false]
        by_cases h2 : m.strategy = "roundrobin"
        · simp only [h2, if_true, hrr]
        · simp only [h2, if_false]
          by_cases h3 : m.strategy = "leastused"
          · simp only [h3, if_true, hlu]
          · simp only [h3, if_false]
            by_cases h4 : m.strategy = "performance"
            · simp only [h4, if_true, hperf]
            · simp only [h4, if_false, hrr]

/-- A concrete pool whose single node is disabled: used to witness the
fallback clause of the selection theorem. -/
def mgrDown : IPManager :=
  { ip_pool := [{ address := "d", port := 9, country := none, isp := none }]
    ip_stats := [("d", IPStats.init)]
    node_states := [("d", { NodeState.new with enabled := false })]
    current_index := 0
    strategy := "random" }

/-- Witness for the selection theorem: on the concrete one-node pool whose
node is disabled, `select_ip` still returns the first node. -/
theorem select_ip_none_iff_empty_with_fallback_witness :
    (select_ip mgrDown 7).1 = some (poolFirst mgrDown) :=
  (select_ip_none_iff_empty_with_fallback mgrDown 7).2.2 (by decide) (by decide)

/-! ### `update_node` frame properties (claim C9) -/

theorem findIdx?_isSome_of_exists {p : α → Bool} :
    ∀ (l : List α) (i : Nat), (∃ x ∈ l, p x) → (List.findIdx? p l i).isSome := by
  intro l
  induction l with
  | nil => intro i h; obtain ⟨x, hx, _⟩ := h; exact absurd hx (List.not_mem_nil x)
  | cons a t ih =>
      intro i h
      rw [List.findIdx?_cons]
      by_cases hp : p a
      · simp [hp]
      · simp only [hp, Bool.false_eq_true, if_false]
        obtain ⟨x, hx, hpx⟩ := h
        rw [List.mem_cons] at hx
        rcases hx with rfl | hx
        · exact absurd hpx hp
        · exact ih (i + 1) ⟨x, hx, hpx⟩

theorem set_getElem?_self : ∀ (l : List α) (i : Nat) (a : α), l[i]? = some a → l.set i a = l := by
  intro l
  induction l with
  | nil => intro i a h; simp at h
  | cons b t ih =>
      intro i a h
      cases i with
      | zero => simp at h; simp [h]
      | succ j =>
          simp only [List.getElem?_cons_succ] at h
          simp [List.set_cons_succ, ih j a h]

/-- Core of claim C9: the patched pool keeps every projection that the
patch does not touch.  `f` is the projection, `hkeep` says the patched
record projects like the old one. -/
theorem map_set_patch {f : IPInfo → β} {l : List IPInfo} {idx : Nat} {old new : IPInfo}
    (hg : l[idx]? = some old) (hkeep : f new = f old) :
    (l.set idx new).map f = l.map f := by
  rw [List.map_set, hkeep]
  apply set_getElem?_self
  rw [List.getElem?_map, hg]
  rfl

/-- **C9.** For a node present in the pool, `update_node` with an all-`None`
patch returns `true` and leaves the whole manager (pool, node states,
stats) unchanged; a `None` `country`/`isp` field never clears the stored
value; and no `update_node` call ever modifies any node's address. -/
theorem update_node_frame (m : IPManager) (addr : String) (req : UpdateIPRequest) :
    (addr ∈ m.ip_pool.map (fun ip => ip.address) → req.port = none → req.country = none →
      req.isp = none → req.enabled = none → update_node m addr req = (true, m)) ∧
    ((update_node m addr req).2.ip_pool.map (fun ip => ip.address)
      = m.ip_pool.map (fun ip => ip.address)) ∧
    (req.country = none →
      (update_node m addr req).2.ip_pool.map (fun ip => ip.country)
        = m.ip_pool.map (fun ip => ip.country)) ∧
    (req.isp = none →
      (update_node m addr req).2.ip_pool.map (fun ip => ip.isp)
        = m.ip_pool.map (fun ip => ip.isp)) := by
  refine ⟨fun hmem h1 h2 h3 h4 => ?_, ?_, fun h2 => ?_, fun h3 => ?_⟩
  · have hex : ∃ ip ∈ m.ip_pool, (fun ip : IPInfo => decide (ip.address = addr)) ip := by
      rw [List.mem_map] at hmem
      obtain ⟨ip, hip, haddr⟩ := hmem
      exact ⟨ip, hip, by simp [haddr]⟩
    have hsome := findIdx?_isSome_of_exists m.ip_pool 0 hex
    obtain ⟨idx, hidx⟩ := Option.isSome_iff_exists.mp hsome
    unfold update_node
    rw [hidx]
    simp [h1, h2, h3, h4]
  · unfold update_node
    cases hidx : m.ip_pool.findIdx? (fun ip => ip.address = addr) with
    | none => rfl
    | some idx =>
        by_cases hc : req.port.isSome || req.country.isSome || req.isp.isSome
        · simp only [hc, if_true]
          cases hg : m.ip_pool[idx]? with
          | none => rfl
          | some old => exact map_set_patch hg rfl
        · simp only [hc, Bool.false_eq_true, if_false]
  · unfold update_node
    cases hidx : m.ip_pool.findIdx? (fun ip => ip.address = addr) with
    | none => rfl
    | some idx =>
        by_cases hc : req.port.isSome || req.country.isSome || req.isp.isSome
        · simp only [hc, if_true]
          cases hg : m.ip_pool[idx]? with
          | none => rfl
          | some old => exact map_set_patch hg (by simp [h2])
        · simp only [hc, Bool.false_eq_true, if_false]
  · unfold update_node
    cases hidx : m.ip_pool.findIdx? (fun ip => ip.address = addr) with
    | none => rfl
    | some idx =>
        by_cases hc : req.port.isSome || req.country.isSome || req.isp.isSome
        · simp only [hc, if_true]
          cases hg : m.ip_pool[idx]? with
          | none => rfl
          | some old => exact map_set_patch hg (by simp [h3])
        · simp only [hc, Bool.false_eq_true, if_false]

/-- Witness for the `update_node` frame theorem: the all-`None` patch on
the concrete one-node pool returns `true` and changes nothing. -/
theorem update_node_frame_witness :
    update_node mgrOne "10.0.0.1"
        { address := "10.0.0.1", port := none, country := none, isp := none, enabled := none }
      = (true, mgrOne) :=
  (update_node_frame mgrOne "10.0.0.1"
      { address := "10.0.0.1", port := none, country := none, isp := none, enabled := none }).1
    (by decide) rfl rfl rfl rfl

/-! ### PerformanceBased selection (claim C7) -/

/-- The success rate in the *claim's* formulation:
`success_count / max(use_count, 1)` (the source instead divides by
`success_count + failure_count + 1`). -/
def specSuccessRate (st : NodeState) : ℚ :=
  (st.success_count : ℚ) / ((max st.use_count 1 : Nat) : ℚ)

/-- Strict "better" order actually implemented by the comparator of
`select_performance_based`: strictly higher code success rate, or equal
rate and strictly lower latency. -/
def perfBetter (m : IPManager) (x y : IPInfo) : Prop :=
  codeRate m y < codeRate m x ∨
    (codeRate m x = codeRate m y ∧ codeLat m x < codeLat m y)

/-- Weak companion of `perfBetter`. -/
def perfWeakLE (m : IPManager) (x y : IPInfo) : Prop :=
  codeRate m y < codeRate m x ∨
    (codeRate m x = codeRate m y ∧ codeLat m x ≤ codeLat m y)

theorem perfCmp_lt_iff (m : IPManager) (a b : IPInfo) :
    perfCmp m a b = Ordering.lt ↔ perfBetter m a b := by
  unfold perfCmp qcmp perfBetter
  by_cases h1 : codeRate m b < codeRate m a
  · rw [if_pos h1]
    simp [h1]
  · rw [if_neg h1]
    by_cases h2 : codeRate m b = codeRate m a
    · rw [if_pos h2]
      constructor
      · intro h
        exact Or.inr ⟨h2.symm, Nat.compare_eq_lt.mp h⟩
      · intro h
        rcases h with h | h
        · exact absurd h h1
        · exact Nat.compare_eq_lt.mpr h.2
    · rw [if_neg h2]
      constructor
      · intro h
        exact Ordering.noConfusion h
      · intro h
        rcases h with h | h
        · exact absurd h h1
        · exact absurd h.1.symm h2

theorem perfWeakLE_refl (m : IPManager) (x : IPInfo) : perfWeakLE m x x :=
  Or.inr ⟨rfl, le_refl _⟩

theorem perfWeakLE_of_better {m : IPManager} {x y : IPInfo}
    (h : perfBetter m x y) : perfWeakLE m x y := by
  rcases h with h | h
  · exact Or.inl h
  · exact Or.inr ⟨h.1, le_of_lt h.2⟩

theorem perfWeakLE_of_not_better {m : IPManager} {x y : IPInfo}
    (h : ¬ perfBetter m y x) : perfWeakLE m x y := by
  unfold perfBetter at h
  push_neg at h
  rcases lt_trichotomy (codeRate m y) (codeRate m x) with hr | hr | hr
  · exact Or.inl hr
  · exact Or.inr ⟨hr.symm, h.2 hr⟩
  · exact absurd hr (not_lt.mpr h.1)

theorem perfWeakLE_trans {m : IPManager} {x y z : IPInfo}
    (h1 : perfWeakLE m x y) (h2 : perfWeakLE m y z) : perfWeakLE m x z := by
  rcases h1 with h1 | h1 <;> rcases h2 with h2 | h2
  · exact Or.inl (lt_trans h2 h1)
  · exact Or.inl (h2.1 ▸ h1)
  · exact Or.inl (h1.1 ▸ h2)
  · exact Or.inr ⟨h1.1.trans h2.1, le_trans h1.2 h2.2⟩

theorem not_better_of_weakLE {m : IPManager} {x y : IPInfo}
    (h : perfWeakLE m x y) : ¬ perfBetter m y x := by
  intro hb
  rcases h with h | h <;> rcases hb with hb | hb
  · exact absurd (lt_trans h hb) (lt_irrefl _)
  · exact absurd (hb.1 ▸ h) (lt_irrefl _)
  · exact absurd (h.1 ▸ hb) (lt_irrefl _)
  · exact absurd (lt_of_lt_of_le hb.2 h.2) (lt_irrefl _)

/-- The running minimum of the `min_by` fold is weakly better than every
element it has seen (and than the seed). -/
theorem foldlPerf_wle (m : IPManager) :
    ∀ (l : List IPInfo) (a x : IPInfo), x ∈ a :: l →
      perfWeakLE m
        (l.foldl (fun acc y => if perfCmp m y acc = Ordering.lt then y else acc) a) x := by
  intro l
  induction l with
  | nil =>
      intro a x hx
      rw [List.mem_cons] at hx
      rcases hx with rfl | hx
      · exact perfWeakLE_refl m x
      · exact absurd hx (List.not_mem_nil x)
  | cons b t ih =>
      intro a x hx
      simp only [List.foldl_cons]
      have hstep : perfWeakLE m (if perfCmp m b a = Ordering.lt then b else a) a ∧
          perfWeakLE m (if perfCmp m b a = Ordering.lt then b else a) b := by
        by_cases hc : perfCmp m b a = Ordering.lt
        · rw [if_pos hc]
          exact ⟨perfWeakLE_of_better ((perfCmp_lt_iff m b a).mp hc), perfWeakLE_refl m b⟩
        · rw [if_neg hc]
          exact ⟨perfWeakLE_refl m a,
            perfWeakLE_of_not_better (fun hb => hc ((perfCmp_lt_iff m b a).mpr hb))⟩
      have hres := ih (if perfCmp m b a = Ordering.lt then b else a)
      rw [List.mem_cons] at hx
      rcases hx with rfl | hx
      · exact perfWeakLE_trans (hres _ (List.mem_cons_self _ _)) hstep.1
      · rw [List.mem_cons] at hx
        rcases hx with rfl | hx
        · exact perfWeakLE_trans (hres _ (List.mem_cons_self _ _)) hstep.2
        · exact hres x (List.mem_cons_of_mem _ hx)

/-- **C7 (amended).** Under the `performance` strategy, with at least one
available node, `select_ip` returns an available node that is maximal in
the order the source implements: no available node has a strictly higher
success rate (`success_count / (success_count + failure_count + 1)`), nor
an equal rate with a strictly lower `NodeState.latency`. -/
theorem select_performance_based_maximal (m : IPManager) (r : Nat)
    (hs : m.strategy = "performance")
    (hne : m.ip_pool.filter (fun ip => nodeAvailable m ip) ≠ []) :
    ∃ pick, (select_ip m r).1 = some pick ∧
      pick ∈ m.ip_pool.filter (fun ip => nodeAvailable m ip) ∧
      ∀ x ∈ m.ip_pool.filter (fun ip => nodeAvailable m ip),
        ¬ (codeRate m pick < codeRate m x ∨
            (codeRate m x = codeRate m pick ∧ codeLat m x < codeLat m pick)) := by
  have hpool : m.ip_pool ≠ [] := by
    intro h
    exact hne (by simp [h])
  have hsel : select_ip m r = (some (select_performance_based m), m.current_index) := by
    unfold select_ip
    rw [if_neg hpool, hs]
    rw [if_neg (by decide : ¬("performance" : String) = "random")]
    rw [if_neg (by decide : ¬("performance" : String) = "roundrobin")]
    rw [if_neg (by decide : ¬("performance" : String) = "leastused")]
    rw [if_pos rfl]
  cases hfil : m.ip_pool.filter (fun ip => nodeAvailable m ip) with
  | nil => exact absurd hfil hne
  | cons a t =>
      have hpick : select_performance_based m =
          t.foldl (fun acc y => if perfCmp m y acc = Ordering.lt then y else acc) a := by
        unfold select_performance_based
        rw [hfil]
        rw [if_neg (by simp : ¬(a :: t = ([] : List IPInfo)))]
        rfl
      refine ⟨select_performance_based m, by rw [hsel], ?_, ?_⟩
      · rw [hpick]
        exact foldlPick_mem _ t a
      · intro x hx
        have hw : perfWeakLE m (select_performance_based m) x := by
          rw [hpick]
          exact foldlPerf_wle m t a x hx
        exact not_better_of_weakLE hw

/-- Node "a" of the performance counterexample. -/
def ipA : IPInfo := { address := "a", port := 1, country := none, isp := none }

/-- Node "b" of the performance counterexample. -/
def ipB : IPInfo := { address := "b", port := 2, country := none, isp := none }

/-- State of node "a": 1 success, 1 failure, `use_count` 2, latency 10. -/
def stA : NodeState :=
  { enabled := true, health_status := HealthStatus.Unknown, use_count := 2,
    success_count := 1, failure_count := 1, latency := 10, last_used := 0 }

/-- State of node "b": 9 successes, 9 failures, `use_count` 18, latency 20. -/
def stB : NodeState :=
  { enabled := true, health_status := HealthStatus.Unknown, use_count := 18,
    success_count := 9, failure_count := 9, latency := 20, last_used := 0 }

/-- The two-node pool on which the source's comparator and the claim's
comparator disagree: equal claim-side success rates (1/2 = 9/18) would
make latency the tiebreak (node "a" wins), but the source's
`s/(s+f+1)` rates (1/3 < 9/19) select node "b". -/
def mgrPerf : IPManager :=
  { ip_pool := [ipA, ipB]
    ip_stats := [("a", IPStats.init), ("b", IPStats.init)]
    node_states := [("a", stA), ("b", stB)]
    current_index := 0
    strategy := "performance" }

/-- **C7 (counterexample).** On `mgrPerf` the claim's lexicographic order
(success rate `s/max(u,1)`, ties by lower latency) prefers node "a"
(equal rates, latency 10 < 20), yet `select_ip` returns node "b": the
source's success rate is `s/(s+f+1)`, not `s/max(use_count, 1)`. -/
theorem select_performance_not_claim_order :
    (select_ip mgrPerf 0).1 = some ipB ∧
    ipA ∈ mgrPerf.ip_pool ∧
    nodeAvailable mgrPerf ipA = true ∧
    lookupAssoc "a" mgrPerf.node_states = some stA ∧
    lookupAssoc "b" mgrPerf.node_states = some stB ∧
    specSuccessRate stA = specSuccessRate stB ∧
    stA.latency < stB.latency ∧
    ipB ≠ ipA := by
  have hra : codeRate mgrPerf ipA = 1 / 3 := by
    have : codeRate mgrPerf ipA = successRateQ stA := rfl
    rw [this]
    norm_num [successRateQ, stA]
  have hrb : codeRate mgrPerf ipB = 9 / 19 := by
    have : codeRate mgrPerf ipB = successRateQ stB := rfl
    rw [this]
    norm_num [successRateQ, stB]
  have hcmp : perfCmp mgrPerf ipB ipA = Ordering.lt := by
    unfold perfCmp qcmp
    rw [hra, hrb]
    rw [if_pos (by norm_num : (1 : ℚ) / 3 < 9 / 19)]
  have hfil : mgrPerf.ip_pool.filter (fun ip => nodeAvailable mgrPerf ip) = [ipA, ipB] := by
    decide
  refine ⟨?_, by decide, by decide, by decide, by decide, ?_, by decide, by decide⟩
  · unfold select_ip
    rw [if_neg (by decide : ¬mgrPerf.ip_pool = [])]
    rw [show mgrPerf.strategy = "performance" from rfl]
    rw [if_neg (by decide : ¬("performance" : String) = "random")]
    rw [if_neg (by decide : ¬("performance" : String) = "roundrobin")]
    rw [if_neg (by decide : ¬("performance" : String) = "leastused")]
    rw [if_pos rfl]
    unfold select_performance_based
    rw [hfil]
    rw [if_neg (by decide : ¬([ipA, ipB] : List IPInfo) = [])]
    show some (if perfCmp mgrPerf ipB ipA = Ordering.lt then ipB else ipA) = some ipB
    rw [if_pos hcmp]
  · norm_num [specSuccessRate, stA, stB]

/-- Witness for the amended performance theorem: on the concrete pool
`mgrPerf` an available, maximal node is indeed selected. -/
theorem select_performance_based_maximal_witness :
    ∃ pick, (select_ip mgrPerf 3).1 = some pick ∧
      pick ∈ mgrPerf.ip_pool.filter (fun ip => nodeAvailable mgrPerf ip) ∧
      ∀ x ∈ mgrPerf.ip_pool.filter (fun ip => nodeAvailable mgrPerf ip),
        ¬ (codeRate mgrPerf pick < codeRate mgrPerf x ∨
            (codeRate mgrPerf x = codeRate mgrPerf pick ∧
              codeLat mgrPerf x < codeLat mgrPerf pick)) :=
  select_performance_based_maximal mgrPerf 3 rfl (by decide)

/-! ## Traffic analyzer (`src/vulpini/src/traffic_analyzer/mod.rs`)

`Instant`/`Duration` are `Nat` nanoseconds.  One `now` argument models the
`Instant::now()` calls made inside a single record operation. -/

/-- `RequestInfo` from `traffic_analyzer/mod.rs` (that file's struct has no
success flag). -/
structure RequestInfo where
  timestamp : Nat
  size : Nat
  latency : Nat
  protocol : String
deriving DecidableEq, Repr

/-- `TrafficStats`.  Rates are `f64` in the source, modelled as `ℚ`;
durations are `Nat` nanoseconds (`Duration / u32` division truncates at
the nanosecond, which is `Nat` division here). -/
structure TrafficStats where
  total_requests : Nat
  total_bytes_in : Nat
  total_bytes_out : Nat
  active_connections : Nat
  requests_per_second : ℚ
  bytes_per_second : ℚ
  avg_latency : Nat
  p50_latency : Nat
  p95_latency : Nat
  p99_latency : Nat
  error_count : Nat
  error_rate : ℚ
deriving DecidableEq, Repr

/-- `TrafficStats::default()`. -/
def TrafficStats.default : TrafficStats :=
  { total_requests := 0, total_bytes_in := 0, total_bytes_out := 0,
    active_connections := 0, requests_per_second := 0, bytes_per_second := 0,
    avg_latency := 0, p50_latency := 0, p95_latency := 0, p99_latency := 0,
    error_count := 0, error_rate := 0 }

/-- `TrafficAnalyzer` state.  A byte-history entry is
`(timestamp, bytes, is_in)`. -/
structure TrafficAnalyzer where
  request_history : List RequestInfo
  byte_history : List (Nat × Nat × Bool)
  window_size : Nat
  current_stats : TrafficStats
deriving DecidableEq, Repr

/-- `TrafficAnalyzer::new(window_size)`. -/
def TrafficAnalyzer.new (w : Nat) : TrafficAnalyzer :=
  { request_history := [], byte_history := [], window_size := w,
    current_stats := TrafficStats.default }

/-- `TrafficAnalyzer::cleanup_expired` (lines 84–102): pop entries from the
front of each ring while the front's timestamp is `< now − window_size`
(the pop-while loops are `dropWhile`). -/
def cleanup_expired (a : TrafficAnalyzer) (now : Nat) : TrafficAnalyzer :=
  { a with
    request_history :=
      a.request_history.dropWhile (fun r => r.timestamp < now - a.window_size)
    byte_history :=
      a.byte_history.dropWhile (fun e => e.1 < now - a.window_size) }

/-- `TrafficAnalyzer::update_stats` (lines 104–147).  Early return when the
request ring, or its in-window portion, is empty (leaving the cached stats
untouched); otherwise recompute every field.  `n` models the `u32` cast of
the request count; the sorted copy of the latencies is produced by
insertion sort (on `Nat` values any correct sort yields the same list as
Rust's `sort`). -/
def update_stats (a : TrafficAnalyzer) (now : Nat) : TrafficAnalyzer :=
  if a.request_history = [] then a
  else
    let recent := a.request_history.filter (fun r => now - r.timestamp < a.window_size)
    if recent = [] then a
    else
      let total_requests := recent.length
      let total_bytes := (recent.map (fun r => r.size)).sum
      let total_latency := (recent.map (fun r => r.latency)).sum
      let errors := (recent.filter (fun r => 10000000000 < r.latency)).length
      let n := total_requests % 4294967296
      let latencies :=
        List.insertionSort (fun x y => x ≤ y) (recent.map (fun r => r.latency))
      let n_lat := latencies.length
      let stats1 : TrafficStats :=
        { a.current_stats with
          total_requests := total_requests
          total_bytes_in :=
            ((a.byte_history.filter (fun e => e.2.2)).map (fun e => e.2.1)).sum
          total_bytes_out :=
            ((a.byte_history.filter (fun e => !e.2.2)).map (fun e => e.2.1)).sum
          requests_per_second :=
            (total_requests : ℚ) / ((a.window_size / 1000000000 : Nat) : ℚ)
          bytes_per_second :=
            (total_bytes : ℚ) / ((a.window_size / 1000000000 : Nat) : ℚ)
          avg_latency := if 0 < n then total_latency / n else 0 }
      let stats2 : TrafficStats :=
        if 0 < n_lat then
          { stats1 with
            p50_latency := latencies.getD (n_lat * 50 / 100) 0
            p95_latency :=
              if 20 ≤ n_lat then latencies.getD (n_lat * 95 / 100) 0
              else latencies.getD (n_lat - 1) 0
            p99_latency :=
              if 100 ≤ n_lat then latencies.getD (n_lat * 99 / 100) 0
              else latencies.getD (n_lat - 1) 0 }
        else stats1
      { a with current_stats :=
          { stats2 with
            error_count := errors
            error_rate := (errors : ℚ) / (n : ℚ) } }

/-- `TrafficAnalyzer::record_request`: append, evict, recompute. -/
def record_request (a : TrafficAnalyzer) (request : RequestInfo) (now : Nat) :
    TrafficAnalyzer :=
  update_stats
    (cleanup_expired { a with request_history := a.request_history ++ [request] } now) now

/-- `TrafficAnalyzer::record_bytes`: append one entry per direction with
the same timestamp, evict, recompute. -/
def record_bytes (a : TrafficAnalyzer) (bytes_in bytes_out : Nat) (now : Nat) :
    TrafficAnalyzer :=
  update_stats
    (cleanup_expired
      { a with byte_history :=
          a.byte_history ++ [(now, bytes_in, true), (now, bytes_out, false)] } now) now

/-! ### Latency percentiles (claim C3) -/

/-- **C3 (amended).** Whenever the in-window request list is non-empty,
the recomputed percentiles are taken from the sorted copy of the window's
latencies at the source's indices: `p50` at `⌊0.50·n⌋`, `p95` at
`⌊0.95·n⌋` when `n ≥ 20` else the last element, `p99` at `⌊0.99·n⌋` when
`n ≥ 100` else the last element. -/
theorem update_stats_percentile_indices (a : TrafficAnalyzer) (now : Nat)
    (hrec : a.request_history.filter (fun r => now - r.timestamp < a.window_size) ≠ []) :
    ∃ latencies,
      latencies = List.insertionSort (fun x y => x ≤ y)
        ((a.request_history.filter (fun r => now - r.timestamp < a.window_size)).map
          (fun r => r.latency)) ∧
      latencies.Sorted (fun x y => x ≤ y) ∧
      latencies.Perm
        ((a.request_history.filter (fun r => now - r.timestamp < a.window_size)).map
          (fun r => r.latency)) ∧
      (update_stats a now).current_stats.p50_latency
        = latencies.getD (latencies.length * 50 / 100) 0 ∧
      (update_stats a now).current_stats.p95_latency
        = (if 20 ≤ latencies.length then latencies.getD (latencies.length * 95 / 100) 0
           else latencies.getD (latencies.length - 1) 0) ∧
      (update_stats a now).current_stats.p99_latency
        = (if 100 ≤ latencies.length then latencies.getD (latencies.length * 99 / 100) 0
           else latencies.getD (latencies.length - 1) 0) := by
  have hbase : a.request_history ≠ [] := by
    intro h
    rw [h] at hrec
    exact hrec rfl
  refine ⟨_, rfl, List.sorted_insertionSort _ _, List.perm_insertionSort _ _, ?_, ?_, ?_⟩ <;>
    · unfold update_stats
      rw [if_neg hbase, if_neg hrec]
      have hlen : 0 < (List.insertionSort (fun x y => x ≤ y)
          ((a.request_history.filter (fun r => now - r.timestamp < a.window_size)).map
            (fun r => r.latency))).length := by
        rw [List.length_insertionSort, List.length_map]
        exact List.length_pos.mpr hrec
      simp only [if_pos hlen]

/-- One request with latency `i` milliseconds (timestamps all 0). -/
def mkReq (i : Nat) : RequestInfo :=
  { timestamp := 0, size := 0, latency := i * 1000000, protocol := "http" }

/-- 100 requests with latencies 1…100 ms fed through `record_request` into
a fresh analyzer with the default 60 s window (all at `now = 0`). -/
def feed100 : TrafficAnalyzer :=
  (List.range 100).foldl (fun a i => record_request a (mkReq (i + 1)) 0)
    (TrafficAnalyzer.new 60000000000)

set_option maxRecDepth 20000 in
/-- **C3 (counterexample).** Feeding 100 requests with latencies 1…100 ms
does *not* yield `p50 = 50 ms, p95 = 95 ms, p99 = 99 ms` as the spec's
scenario predicts: the index arithmetic (`⌊0.50·100⌋ = 50` into the
0-indexed sorted array, etc.) selects 51 ms, 96 ms and 100 ms. -/
theorem percentile_scenario_off_by_one :
    feed100.current_stats.p50_latency = 51000000 ∧
    feed100.current_stats.p95_latency = 96000000 ∧
    feed100.current_stats.p99_latency = 100000000 ∧
    feed100.current_stats.p50_latency ≠ 50000000 ∧
    feed100.current_stats.p95_latency ≠ 95000000 ∧
    feed100.current_stats.p99_latency ≠ 99000000 := by
  refine ⟨by decide, by decide, by decide, by decide, by decide, by decide⟩

/-- The same 100-request window as a direct analyzer state, used to
instantiate the percentile theorem. -/
def analyzer100 : TrafficAnalyzer :=
  { request_history := (List.range 100).map (fun i => mkReq (i + 1))
    byte_history := []
    window_size := 60000000000
    current_stats := TrafficStats.default }

/-- Witness for the percentile theorem: on the concrete 100-request window
the indices select 51 ms, 96 ms and 100 ms. -/
theorem update_stats_percentile_indices_witness :
    (update_stats analyzer100 0).current_stats.p50_latency = 51000000 ∧
    (update_stats analyzer100 0).current_stats.p95_latency = 96000000 ∧
    (update_stats analyzer100 0).current_stats.p99_latency = 100000000 := by
  obtain ⟨lat, hdef, _, _, h50, h95, h99⟩ :=
    update_stats_percentile_indices analyzer100 0 (by decide)
  subst hdef
  refine ⟨?_, ?_, ?_⟩
  · rw [h50]; decide
  · rw [h95]; decide
  · rw [h99]; decide

/-! ### Eviction and recomputation (claim C8) -/

theorem update_stats_request_history (b : TrafficAnalyzer) (now : Nat) :
    (update_stats b now).request_history = b.request_history := by
  simp only [update_stats]
  split
  · rfl
  · split
    · rfl
    · rfl

theorem update_stats_byte_history (b : TrafficAnalyzer) (now : Nat) :
    (update_stats b now).byte_history = b.byte_history := by
  simp only [update_stats]
  split
  · rfl
  · split
    · rfl
    · rfl

theorem update_stats_window_size (b : TrafficAnalyzer) (now : Nat) :
    (update_stats b now).window_size = b.window_size := by
  simp only [update_stats]
  split
  · rfl
  · split
    · rfl
    · rfl

/-- On a list sorted by timestamp, popping the expired prefix removes
exactly the expired entries. -/
theorem dropWhile_lt_eq_filter (ts : α → Nat) (c : Nat) :
    ∀ l : List α, l.Pairwise (fun x y => ts x ≤ ts y) →
      l.dropWhile (fun x => ts x < c) = l.filter (fun x => ¬ ts x < c) := by
  intro l
  induction l with
  | nil => intro _; rfl
  | cons a t ih =>
      intro hp
      rw [List.pairwise_cons] at hp
      rw [List.dropWhile_cons, List.filter_cons]
      by_cases ha : ts a < c
      · simp [ha, ih hp.2]
      · simp only [ha, decide_False, Bool.false_eq_true, if_false, not_false_eq_true,
          decide_True, if_true]
        rw [eq_comm, List.cons_eq_cons]
        refine ⟨rfl, ?_⟩
        rw [List.filter_eq_self]
        intro x hx
        have := hp.1 x hx
        simp only [decide_eq_true_eq]
        omega

/-- An in-window entry is never expired, so filtering the cleaned ring for
the window is the same as filtering the original ring. -/
theorem filter_window_filter_expired (now W : Nat) (l : List RequestInfo) :
    (l.filter (fun r => ¬ r.timestamp < now - W)).filter
        (fun r => now - r.timestamp < W)
      = l.filter (fun r => now - r.timestamp < W) := by
  rw [List.filter_filter]
  apply List.filter_congr
  intro x _
  by_cases hw : now - x.timestamp < W
  · have hne : ¬ x.timestamp < now - W := by omega
    simp [hw, hne]
  · simp [hw]

/-- The spec's §4.4 recomputation as a pure function of exactly the
remaining in-window request entries and the remaining byte entries —
the reference definition for the refinement conjunct of the eviction
claim ("recompute stats over what remains"). -/
def specWindowStats (recent : List RequestInfo) (bytes : List (Nat × Nat × Bool))
    (active : Nat) (W : Nat) : TrafficStats :=
  let latencies := List.insertionSort (fun x y => x ≤ y) (recent.map (fun r => r.latency))
  let n := recent.length
  { total_requests := n
    total_bytes_in := ((bytes.filter (fun e => e.2.2)).map (fun e => e.2.1)).sum
    total_bytes_out := ((bytes.filter (fun e => !e.2.2)).map (fun e => e.2.1)).sum
    active_connections := active
    requests_per_second := (n : ℚ) / ((W / 1000000000 : Nat) : ℚ)
    bytes_per_second :=
      (((recent.map (fun r => r.size)).sum : Nat) : ℚ) / ((W / 1000000000 : Nat) : ℚ)
    avg_latency := (recent.map (fun r => r.latency)).sum / n
    p50_latency := latencies.getD (n * 50 / 100) 0
    p95_latency :=
      if 20 ≤ n then latencies.getD (n * 95 / 100) 0 else latencies.getD (n - 1) 0
    p99_latency :=
      if 100 ≤ n then latencies.getD (n * 99 / 100) 0 else latencies.getD (n - 1) 0
    error_count := (recent.filter (fun r => 10000000000 < r.latency)).length
    error_rate :=
      (((recent.filter (fun r => 10000000000 < r.latency)).length : Nat) : ℚ) / (n : ℚ) }

theorem update_stats_eq_self_of_no_recent (b : TrafficAnalyzer) (now : Nat)
    (h : b.request_history.filter (fun r => now - r.timestamp < b.window_size) = []) :
    update_stats b now = b := by
  simp only [update_stats]
  by_cases hb : b.request_history = []
  · rw [if_pos hb]
  · rw [if_neg hb, if_pos h]

/-- Net effect of `cleanup_expired` followed by `update_stats` on a state
with time-sorted rings: eviction removes exactly the expired entries, and
the cached stats either are recomputed from exactly the in-window entries
(when at least one request remains in the window) or are retained
unchanged (when none does). -/
theorem cleanup_update_characterization (a : TrafficAnalyzer) (now : Nat)
    (hs_req : a.request_history.Pairwise (fun x y => x.timestamp ≤ y.timestamp))
    (hs_byte : a.byte_history.Pairwise (fun x y => x.1 ≤ y.1))
    (hlen : (a.request_history.filter (fun r => now - r.timestamp < a.window_size)).length
      < 4294967296) :
    (update_stats (cleanup_expired a now) now).request_history
        = a.request_history.filter (fun r => ¬ r.timestamp < now - a.window_size) ∧
    (update_stats (cleanup_expired a now) now).byte_history
        = a.byte_history.filter (fun e => ¬ e.1 < now - a.window_size) ∧
    (a.request_history.filter (fun r => now - r.timestamp < a.window_size) = [] →
      (update_stats (cleanup_expired a now) now).current_stats = a.current_stats) ∧
    (a.request_history.filter (fun r => now - r.timestamp < a.window_size) ≠ [] →
      (update_stats (cleanup_expired a now) now).current_stats
        = specWindowStats
            (a.request_history.filter (fun r => now - r.timestamp < a.window_size))
            (a.byte_history.filter (fun e => ¬ e.1 < now - a.window_size))
            a.current_stats.active_connections a.window_size) := by
  have hcr : (cleanup_expired a now).request_history
      = a.request_history.filter (fun r => ¬ r.timestamp < now - a.window_size) := by
    show a.request_history.dropWhile (fun r => r.timestamp < now - a.window_size) = _
    exact dropWhile_lt_eq_filter (fun r => r.timestamp) (now - a.window_size)
      a.request_history hs_req
  have hcb : (cleanup_expired a now).byte_history
      = a.byte_history.filter (fun e => ¬ e.1 < now - a.window_size) := by
    show a.byte_history.dropWhile (fun e => e.1 < now - a.window_size) = _
    exact dropWhile_lt_eq_filter (fun e => e.1) (now - a.window_size) a.byte_history hs_byte
  have hwin : (cleanup_expired a now).request_history.filter
        (fun r => now - r.timestamp < (cleanup_expired a now).window_size)
      = a.request_history.filter (fun r => now - r.timestamp < a.window_size) := by
    rw [hcr]
    exact filter_window_filter_expired now a.window_size a.request_history
  refine ⟨?_, ?_, fun hempty => ?_, fun hne => ?_⟩
  · rw [update_stats_request_history, hcr]
  · rw [update_stats_byte_history, hcb]
  · rw [update_stats_eq_self_of_no_recent _ _ (hwin.trans hempty)]
    rfl
  · have hb : (cleanup_expired a now).request_history ≠ [] := by
      intro h
      apply hne
      rw [← hwin, h]
      rfl
    have hpos : 0 < (a.request_history.filter
        (fun r => now - r.timestamp < a.window_size)).length :=
      List.length_pos.mpr hne
    simp only [update_stats, specWindowStats]
    rw [if_neg hb, hwin, if_neg hne, hcb]
    rw [show (cleanup_expired a now).window_size = a.window_size from rfl]
    rw [show (cleanup_expired a now).current_stats = a.current_stats from rfl]
    rw [Nat.mod_eq_of_lt hlen]
    rw [if_pos hpos]
    rw [List.length_insertionSort, List.length_map]
    rw [if_pos hpos]

/-- **C8 (amended).** After `record_request` or `record_bytes` on
time-sorted rings: the expired entries (`timestamp < now − W`) are evicted
exactly, and — provided at least one request remains inside the window —
the cached `TrafficStats` are recomputed over exactly the remaining
in-window entries (`specWindowStats`); when eviction leaves no request in
the window the previously cached stats are retained unchanged. -/
theorem record_ops_evict_and_recompute (a : TrafficAnalyzer) (r : RequestInfo)
    (bin bout now : Nat)
    (hs_req : (a.request_history ++ [r]).Pairwise (fun x y => x.timestamp ≤ y.timestamp))
    (hs_byte : a.byte_history.Pairwise (fun x y => x.1 ≤ y.1))
    (hb_now : ∀ e ∈ a.byte_history, e.1 ≤ now)
    (hlen1 : ((a.request_history ++ [r]).filter
        (fun q => now - q.timestamp < a.window_size)).length < 4294967296)
    (hlen2 : (a.request_history.filter
        (fun q => now - q.timestamp < a.window_size)).length < 4294967296) :
    ((record_request a r now).request_history
        = (a.request_history ++ [r]).filter (fun q => ¬ q.timestamp < now - a.window_size) ∧
     (record_request a r now).byte_history
        = a.byte_history.filter (fun e => ¬ e.1 < now - a.window_size) ∧
     ((a.request_history ++ [r]).filter (fun q => now - q.timestamp < a.window_size) = [] →
        (record_request a r now).current_stats = a.current_stats) ∧
     ((a.request_history ++ [r]).filter (fun q => now - q.timestamp < a.window_size) ≠ [] →
        (record_request a r now).current_stats
          = specWindowStats
              ((a.request_history ++ [r]).filter (fun q => now - q.timestamp < a.window_size))
              (a.byte_history.filter (fun e => ¬ e.1 < now - a.window_size))
              a.current_stats.active_connections a.window_size)) ∧
    ((record_bytes a bin bout now).request_history
        = a.request_history.filter (fun q => ¬ q.timestamp < now - a.window_size) ∧
     (record_bytes a bin bout now).byte_history
        = (a.byte_history ++ [(now, bin, true), (now, bout, false)]).filter
            (fun e => ¬ e.1 < now - a.window_size) ∧
     (a.request_history.filter (fun q => now - q.timestamp < a.window_size) = [] →
        (record_bytes a bin bout now).current_stats = a.current_stats) ∧
     (a.request_history.filter (fun q => now - q.timestamp < a.window_size) ≠ [] →
        (record_bytes a bin bout now).current_stats
          = specWindowStats
              (a.request_history.filter (fun q => now - q.timestamp < a.window_size))
              ((a.byte_history ++ [(now, bin, true), (now, bout, false)]).filter
                (fun e => ¬ e.1 < now - a.window_size))
              a.current_stats.active_connections a.window_size)) := by
  constructor
  · exact cleanup_update_characterization
      { a with request_history := a.request_history ++ [r] } now hs_req hs_byte hlen1
  · have hs_req' : a.request_history.Pairwise (fun x y => x.timestamp ≤ y.timestamp) :=
      hs_req.sublist (List.sublist_append_left _ _)
    have hs_byte' : (a.byte_history ++ [(now, bin, true), (now, bout, false)]).Pairwise
        (fun x y => x.1 ≤ y.1) := by
      rw [List.pairwise_append]
      refine ⟨hs_byte, ?_, ?_⟩
      · simp
      · intro x hx y hy
        have hx' := hb_now x hx
        have : y.1 = now := by
          rcases List.mem_cons.mp hy with hy | hy
          · rw [hy]
          · rcases List.mem_cons.mp hy with hy | hy
            · rw [hy]
            · exact absurd hy (List.not_mem_nil y)
        omega
    exact cleanup_update_characterization
      { a with byte_history := a.byte_history ++ [(now, bin, true), (now, bout, false)] }
      now hs_req' hs_byte' hlen2

/-- An analyzer that recorded one request at time 0, then recorded bytes at
time 100 s: the 60 s window then holds no request, yet the cached stats
are retained. -/
def staleAnalyzer : TrafficAnalyzer :=
  record_bytes
    (record_request (TrafficAnalyzer.new 60000000000)
      { timestamp := 0, size := 7, latency := 5000000, protocol := "http" } 0)
    1 2 100000000000

/-- **C8 (counterexample).** After the `record_bytes` call at `now = 100 s`
the eviction empties the request window, but the cached stats still report
`total_requests = 1` — they are *not* recomputed over the (empty) set of
remaining entries, so they reflect a sample older than `now − W`. -/
theorem stale_stats_after_eviction :
    staleAnalyzer.request_history = [] ∧
    staleAnalyzer.current_stats.total_requests = 1 :=
  ⟨by decide, by decide⟩

/-- One request inside the window, used to instantiate the eviction
theorem. -/
def wReq : RequestInfo := { timestamp := 5, size := 3, latency := 7, protocol := "socks5" }

/-- Witness for the eviction/recompute theorem: recording one in-window
request into a fresh analyzer recomputes the stats over exactly that
request. -/
theorem record_ops_evict_and_recompute_witness :
    (record_request (TrafficAnalyzer.new 60000000000) wReq 10).current_stats
      = specWindowStats [wReq] [] 0 60000000000 :=
  ((record_ops_evict_and_recompute (TrafficAnalyzer.new 60000000000) wReq 1 2 10
      (by decide) (by decide) (by decide) (by decide) (by decide)).1.2.2.2 (by decide))

/-! ## Anomaly detector (`src/vulpini/src/anomaly_detector/mod.rs`) -/

/-- `AnomalyType`. -/
inductive AnomalyType where
  | TrafficSpike
  | LatencySpike
  | ErrorRateHigh
  | ConnectionFlood
deriving DecidableEq, Repr

/-- `Severity`. -/
inductive Severity where
  | Low
  | Medium
  | High
deriving DecidableEq, Repr

/-- `AnomalyEvent`.  The `id` (a fresh UUID) and the formatted
`description` string are omitted from the embedding; timestamps are `Nat`
nanoseconds and the `f64` value/threshold are `ℚ` (durations converted to
seconds as in `as_secs_f64`). -/
structure AnomalyEvent where
  timestamp : Nat
  anomaly_type : AnomalyType
  value : ℚ
  threshold : ℚ
  severity : Severity
deriving DecidableEq, Repr

/-- `AnomalyDetectionConfig` from `config/mod.rs` (the
`check_interval_secs` field steers the supervisor loop, not the detector,
and is carried along unused). -/
structure AnomalyDetectionConfig where
  enabled : Bool
  spike_threshold : ℚ
  latency_threshold_ms : Nat
  error_rate_threshold : ℚ
  connection_threshold : Nat
  check_interval_secs : Nat
deriving DecidableEq, Repr

/-- `AnomalyDetector` state.  The `HashMap<AnomalyType, Instant>` cooldown
map is a function `AnomalyType → Option Nat`. -/
structure AnomalyDetector where
  config : AnomalyDetectionConfig
  request_rates : List (Nat × ℚ)
  latency_history : List (Nat × Nat)
  error_rates : List (Nat × ℚ)
  event_history : List AnomalyEvent
  last_alert : AnomalyType → Option Nat

/-- `ALERT_COOLDOWN` = 30 s in nanoseconds. -/
def ALERT_COOLDOWN : Nat := 30000000000

/-- `HISTORY_WINDOW` = 5 min in nanoseconds. -/
def HISTORY_WINDOW : Nat := 300000000000

/-- `AnomalyDetector::on_cooldown`: true iff an alert of this type was
emitted less than `ALERT_COOLDOWN` ago (`duration_since` saturates, as
does `Nat` subtraction). -/
def on_cooldown (d : AnomalyDetector) (now : Nat) (ty : AnomalyType) : Bool :=
  match d.last_alert ty with
  | some last => now - last < ALERT_COOLDOWN
  | none => false

/-- `AnomalyDetector::cleanup`: drop samples older than `HISTORY_WINDOW`
from the three series; `checked_sub` makes it a no-op while the clock is
below the window. -/
def ad_cleanup (d : AnomalyDetector) (now : Nat) : AnomalyDetector :=
  if now < HISTORY_WINDOW then d
  else
    { d with
      request_rates := d.request_rates.dropWhile (fun e => e.1 < now - HISTORY_WINDOW)
      latency_history := d.latency_history.dropWhile (fun e => e.1 < now - HISTORY_WINDOW)
      error_rates := d.error_rates.dropWhile (fun e => e.1 < now - HISTORY_WINDOW) }

/-- `AnomalyDetector::detect_spike`. -/
def detect_spike (d : AnomalyDetector) (now : Nat) (current_rate : ℚ) :
    Option AnomalyEvent :=
  if on_cooldown d now AnomalyType.TrafficSpike then none
  else if d.request_rates.length < 5 then none
  else if ((d.request_rates.map (fun e => e.2)).sum / (d.request_rates.length : ℚ))
      * d.config.spike_threshold < current_rate then
    some
      { timestamp := now
        anomaly_type := AnomalyType.TrafficSpike
        value := current_rate
        threshold := ((d.request_rates.map (fun e => e.2)).sum
            / (d.request_rates.length : ℚ)) * d.config.spike_threshold
        severity :=
          if ((d.request_rates.map (fun e => e.2)).sum / (d.request_rates.length : ℚ))
              * d.config.spike_threshold * 2 < current_rate then Severity.High
          else Severity.Medium }
  else none

/-- `AnomalyDetector::detect_latency` (threshold
`Duration::from_millis(latency_threshold_ms)`). -/
def detect_latency (d : AnomalyDetector) (now : Nat) (current_latency : Nat) :
    Option AnomalyEvent :=
  if on_cooldown d now AnomalyType.LatencySpike then none
  else
    if d.config.latency_threshold_ms * 1000000 < current_latency then
      some
        { timestamp := now
          anomaly_type := AnomalyType.LatencySpike
          value := (current_latency : ℚ) / 1000000000
          threshold := ((d.config.latency_threshold_ms * 1000000 : Nat) : ℚ) / 1000000000
          severity := Severity.Medium }
    else none

/-- `AnomalyDetector::detect_error_rate`. -/
def detect_error_rate (d : AnomalyDetector) (now : Nat) (current_error_rate : ℚ) :
    Option AnomalyEvent :=
  if on_cooldown d now AnomalyType.ErrorRateHigh then none
  else
    if d.config.error_rate_threshold < current_error_rate then
      some
        { timestamp := now
          anomaly_type := AnomalyType.ErrorRateHigh
          value := current_error_rate
          threshold := d.config.error_rate_threshold
          severity := Severity.High }
    else none

/-- `AnomalyDetector::detect_connection_flood`. -/
def detect_connection_flood (d : AnomalyDetector) (now : Nat) (connections : Nat) :
    Option AnomalyEvent :=
  if on_cooldown d now AnomalyType.ConnectionFlood then none
  else
    if d.config.connection_threshold < connections then
      some
        { timestamp := now
          anomaly_type := AnomalyType.ConnectionFlood
          value := (connections : ℚ)
          threshold := (d.config.connection_threshold : ℚ)
          severity := Severity.High }
    else none

/-- The four sub-detections of one `detect` tick, in source order (the
sequential `if let Some(event) … events.push(event)` block). -/
def detectEvents (d1 : AnomalyDetector) (now : Nat) (r : ℚ) (l : Nat) (er : ℚ)
    (c : Nat) : List AnomalyEvent :=
  (detect_spike d1 now r).toList ++ (detect_latency d1 now l).toList
    ++ (detect_error_rate d1 now er).toList
    ++ (detect_connection_flood d1 now c).toList

/-- `AnomalyDetector::detect` (lines 62–110): nothing when disabled; else
clean up, detect against the pre-update baseline, push the new samples,
append the events and stamp the cooldown map (the per-event push/insert
loop), then drop from the front down to `MAX_EVENT_HISTORY` (200). -/
def detect (d : AnomalyDetector) (now : Nat) (r : ℚ) (l : Nat) (er : ℚ) (c : Nat) :
    List AnomalyEvent × AnomalyDetector :=
  if !d.config.enabled then ([], d)
  else
    let d1 := ad_cleanup d now
    let events := detectEvents d1 now r l er c
    let d2 :=
      { d1 with
        request_rates := d1.request_rates ++ [(now, r)]
        latency_history := d1.latency_history ++ [(now, l)]
        error_rates := d1.error_rates ++ [(now, er)] }
    let d3 :=
      { d2 with
        event_history := d2.event_history ++ events
        last_alert :=
          events.foldl
            (fun (g : AnomalyType → Option Nat) (ev : AnomalyEvent) =>
              fun t => if t = ev.anomaly_type then some now else g t)
            d2.last_alert }
    (events, { d3 with event_history := d3.event_history.drop (d3.event_history.length - 200) })

/-! ### Cooldown properties (claim C5) -/

theorem ad_cleanup_last_alert (d : AnomalyDetector) (now : Nat) :
    (ad_cleanup d now).last_alert = d.last_alert := by
  unfold ad_cleanup
  split
  · rfl
  · rfl

theorem ad_cleanup_config (d : AnomalyDetector) (now : Nat) :
    (ad_cleanup d now).config = d.config := by
  unfold ad_cleanup
  split
  · rfl
  · rfl

theorem on_cooldown_cleanup (d : AnomalyDetector) (now' now : Nat) (ty : AnomalyType) :
    on_cooldown (ad_cleanup d now') now ty = on_cooldown d now ty := by
  unfold on_cooldown
  rw [ad_cleanup_last_alert]

theorem detect_spike_some {d : AnomalyDetector} {now : Nat} {v : ℚ} {e : AnomalyEvent}
    (h : detect_spike d now v = some e) :
    e.anomaly_type = AnomalyType.TrafficSpike ∧
      on_cooldown d now AnomalyType.TrafficSpike = false := by
  unfold detect_spike at h
  by_cases hc : on_cooldown d now AnomalyType.TrafficSpike
  · rw [if_pos hc] at h
    exact Option.noConfusion h
  · rw [if_neg hc] at h
    refine ⟨?_, by simpa using hc⟩
    by_cases h1 : d.request_rates.length < 5
    · rw [if_pos h1] at h
      exact Option.noConfusion h
    · rw [if_neg h1] at h
      by_cases h2 : ((d.request_rates.map (fun e => e.2)).sum
          / (d.request_rates.length : ℚ)) * d.config.spike_threshold < v
      · rw [if_pos h2] at h
        injection h with h3
        rw [← h3]
      · rw [if_neg h2] at h
        exact Option.noConfusion h

theorem detect_latency_some {d : AnomalyDetector} {now l : Nat} {e : AnomalyEvent}
    (h : detect_latency d now l = some e) :
    e.anomaly_type = AnomalyType.LatencySpike ∧
      on_cooldown d now AnomalyType.LatencySpike = false := by
  unfold detect_latency at h
  by_cases hc : on_cooldown d now AnomalyType.LatencySpike
  · rw [if_pos hc] at h
    exact Option.noConfusion h
  · rw [if_neg hc] at h
    refine ⟨?_, by simpa using hc⟩
    by_cases h1 : d.config.latency_threshold_ms * 1000000 < l
    · rw [if_pos h1] at h
      injection h with h3
      rw [← h3]
    · rw [if_neg h1] at h
      exact Option.noConfusion h

theorem detect_error_rate_some {d : AnomalyDetector} {now : Nat} {er : ℚ} {e : AnomalyEvent}
    (h : detect_error_rate d now er = some e) :
    e.anomaly_type = AnomalyType.ErrorRateHigh ∧
      on_cooldown d now AnomalyType.ErrorRateHigh = false := by
  unfold detect_error_rate at h
  by_cases hc : on_cooldown d now AnomalyType.ErrorRateHigh
  · rw [if_pos hc] at h
    exact Option.noConfusion h
  · rw [if_neg hc] at h
    refine ⟨?_, by simpa using hc⟩
    by_cases h1 : d.config.error_rate_threshold < er
    · rw [if_pos h1] at h
      injection h with h3
      rw [← h3]
    · rw [if_neg h1] at h
      exact Option.noConfusion h

theorem detect_connection_flood_some {d : AnomalyDetector} {now c : Nat} {e : AnomalyEvent}
    (h : detect_connection_flood d now c = some e) :
    e.anomaly_type = AnomalyType.ConnectionFlood ∧
      on_cooldown d now AnomalyType.ConnectionFlood = false := by
  unfold detect_connection_flood at h
  by_cases hc : on_cooldown d now AnomalyType.ConnectionFlood
  · rw [if_pos hc] at h
    exact Option.noConfusion h
  · rw [if_neg hc] at h
    refine ⟨?_, by simpa using hc⟩
    by_cases h1 : d.config.connection_threshold < c
    · rw [if_pos h1] at h
      injection h with h3
      rw [← h3]
    · rw [if_neg h1] at h
      exact Option.noConfusion h

theorem detect_spike_none_of_cooldown {d : AnomalyDetector} {now : Nat} {v : ℚ}
    (hc : on_cooldown d now AnomalyType.TrafficSpike = true) :
    detect_spike d now v = none := by
  unfold detect_spike
  rw [if_pos hc]

theorem detect_latency_none_of_cooldown {d : AnomalyDetector} {now l : Nat}
    (hc : on_cooldown d now AnomalyType.LatencySpike = true) :
    detect_latency d now l = none := by
  unfold detect_latency
  rw [if_pos hc]

theorem detect_error_rate_none_of_cooldown {d : AnomalyDetector} {now : Nat} {er : ℚ}
    (hc : on_cooldown d now AnomalyType.ErrorRateHigh = true) :
    detect_error_rate d now er = none := by
  unfold detect_error_rate
  rw [if_pos hc]

theorem detect_connection_flood_none_of_cooldown {d : AnomalyDetector} {now c : Nat}
    (hc : on_cooldown d now AnomalyType.ConnectionFlood = true) :
    detect_connection_flood d now c = none := by
  unfold detect_connection_flood
  rw [if_pos hc]

theorem alertFold_of_not_mem (now : Nat) :
    ∀ (evs : List AnomalyEvent) (g : AnomalyType → Option Nat) (ty : AnomalyType),
      (∀ e ∈ evs, e.anomaly_type ≠ ty) →
      evs.foldl
        (fun (g : AnomalyType → Option Nat) (ev : AnomalyEvent) =>
          fun t => if t = ev.anomaly_type then some now else g t) g ty = g ty := by
  intro evs
  induction evs with
  | nil => intro g ty _; rfl
  | cons e t ih =>
      intro g ty hne
      rw [List.foldl_cons]
      rw [ih _ ty (fun x hx => hne x (List.mem_cons_of_mem e hx))]
      have hnee := hne e (List.mem_cons_self e t)
      show (if ty = e.anomaly_type then some now else g ty) = g ty
      rw [if_neg (fun h => hnee h.symm)]

theorem alertFold_of_mem (now : Nat) :
    ∀ (evs : List AnomalyEvent) (g : AnomalyType → Option Nat) (ty : AnomalyType),
      (∃ e ∈ evs, e.anomaly_type = ty) →
      evs.foldl
        (fun (g : AnomalyType → Option Nat) (ev : AnomalyEvent) =>
          fun t => if t = ev.anomaly_type then some now else g t) g ty = some now := by
  intro evs
  induction evs with
  | nil =>
      intro g ty h
      obtain ⟨e, he, _⟩ := h
      exact absurd he (List.not_mem_nil e)
  | cons e t ih =>
      intro g ty hex
      rw [List.foldl_cons]
      by_cases hext : ∃ x ∈ t, x.anomaly_type = ty
      · exact ih _ ty hext
      · push_neg at hext
        rw [alertFold_of_not_mem now t _ ty hext]
        obtain ⟨x, hx, hxt⟩ := hex
        rcases List.mem_cons.mp hx with rfl | hx'
        · show (if ty = x.anomaly_type then some now else g ty) = some now
          rw [if_pos hxt.symm]
        · exact absurd hxt (hext x hx')

theorem detect_fst {d : AnomalyDetector} {now : Nat} {r : ℚ} {l : Nat} {er : ℚ} {c : Nat}
    (hen : d.config.enabled = true) :
    (detect d now r l er c).1 = detectEvents (ad_cleanup d now) now r l er c := by
  simp [detect, hen]

theorem detect_fst_disabled {d : AnomalyDetector} {now : Nat} {r : ℚ} {l : Nat} {er : ℚ}
    {c : Nat} (hen : d.config.enabled = false) :
    (detect d now r l er c).1 = [] := by
  simp [detect, hen]

theorem detect_snd_disabled {d : AnomalyDetector} {now : Nat} {r : ℚ} {l : Nat} {er : ℚ}
    {c : Nat} (hen : d.config.enabled = false) :
    (detect d now r l er c).2 = d := by
  simp [detect, hen]

theorem detect_snd_config (d : AnomalyDetector) (now : Nat) (r : ℚ) (l : Nat) (er : ℚ)
    (c : Nat) : (detect d now r l er c).2.config = d.config := by
  by_cases hen : d.config.enabled
  · simp [detect, hen, ad_cleanup_config]
  · simp [detect, hen]

theorem detect_snd_last_alert {d : AnomalyDetector} {now : Nat} {r : ℚ} {l : Nat} {er : ℚ}
    {c : Nat} (hen : d.config.enabled = true) :
    (detect d now r l er c).2.last_alert
      = (detectEvents (ad_cleanup d now) now r l er c).foldl
          (fun (g : AnomalyType → Option Nat) (ev : AnomalyEvent) =>
            fun t => if t = ev.anomaly_type then some now else g t)
          d.last_alert := by
  simp [detect, hen, ad_cleanup_last_alert]

/-- An optional event known to carry a fixed type contributes at most one
event of type `ty`, and none at all when `ty` differs. -/
theorem optPiece_len_le (o : Option AnomalyEvent) (t0 : AnomalyType)
    (hty : ∀ e, o = some e → e.anomaly_type = t0) (ty : AnomalyType) :
    (o.toList.filter (fun ev => ev.anomaly_type = ty)).length
      ≤ if ty = t0 then 1 else 0 := by
  cases o with
  | none => simp
  | some e =>
      have he := hty e rfl
      by_cases h : ty = t0
      · rw [if_pos h]
        exact le_trans (List.length_filter_le _ _) (by simp)
      · rw [if_neg h]
        have hne : ¬ t0 = ty := fun hh => h hh.symm
        have hnil : (Option.toList (some e)).filter (fun ev => ev.anomaly_type = ty) = [] := by
          simp [Option.toList, he, hne]
        rw [hnil]
        simp

theorem optPiece_filter_nil_of_ne (o : Option AnomalyEvent) (t0 : AnomalyType)
    (hty : ∀ e, o = some e → e.anomaly_type = t0) {ty : AnomalyType} (h : ¬ ty = t0) :
    o.toList.filter (fun ev => ev.anomaly_type = ty) = [] := by
  cases o with
  | none => rfl
  | some e =>
      have he := hty e rfl
      have hne : ¬ t0 = ty := fun hh => h hh.symm
      simp [Option.toList, he, hne]

/-- Within one `detect` tick at most one event of any given type is
emitted. -/
theorem detectEvents_count_le_one (d1 : AnomalyDetector) (now : Nat) (r : ℚ) (l : Nat)
    (er : ℚ) (c : Nat) (ty : AnomalyType) :
    ((detectEvents d1 now r l er c).filter (fun ev => ev.anomaly_type = ty)).length ≤ 1 := by
  unfold detectEvents
  rw [List.filter_append, List.filter_append, List.filter_append,
    List.length_append, List.length_append, List.length_append]
  have hS := optPiece_len_le (detect_spike d1 now r) AnomalyType.TrafficSpike
    (fun e h => (detect_spike_some h).1) ty
  have hL := optPiece_len_le (detect_latency d1 now l) AnomalyType.LatencySpike
    (fun e h => (detect_latency_some h).1) ty
  have hE := optPiece_len_le (detect_error_rate d1 now er) AnomalyType.ErrorRateHigh
    (fun e h => (detect_error_rate_some h).1) ty
  have hF := optPiece_len_le (detect_connection_flood d1 now c) AnomalyType.ConnectionFlood
    (fun e h => (detect_connection_flood_some h).1) ty
  cases ty with
  | TrafficSpike =>
      rw [if_pos rfl] at hS
      rw [if_neg (by decide : ¬ AnomalyType.TrafficSpike = AnomalyType.LatencySpike)] at hL
      rw [if_neg (by decide : ¬ AnomalyType.TrafficSpike = AnomalyType.ErrorRateHigh)] at hE
      rw [if_neg (by decide : ¬ AnomalyType.TrafficSpike = AnomalyType.ConnectionFlood)] at hF
      omega
  | LatencySpike =>
      rw [if_pos rfl] at hL
      rw [if_neg (by decide : ¬ AnomalyType.LatencySpike = AnomalyType.TrafficSpike)] at hS
      rw [if_neg (by decide : ¬ AnomalyType.LatencySpike = AnomalyType.ErrorRateHigh)] at hE
      rw [if_neg (by decide : ¬ AnomalyType.LatencySpike = AnomalyType.ConnectionFlood)] at hF
      omega
  | ErrorRateHigh =>
      rw [if_pos rfl] at hE
      rw [if_neg (by decide : ¬ AnomalyType.ErrorRateHigh = AnomalyType.TrafficSpike)] at hS
      rw [if_neg (by decide : ¬ AnomalyType.ErrorRateHigh = AnomalyType.LatencySpike)] at hL
      rw [if_neg (by decide : ¬ AnomalyType.ErrorRateHigh = AnomalyType.ConnectionFlood)] at hF
      omega
  | ConnectionFlood =>
      rw [if_pos rfl] at hF
      rw [if_neg (by decide : ¬ AnomalyType.ConnectionFlood = AnomalyType.TrafficSpike)] at hS
      rw [if_neg (by decide : ¬ AnomalyType.ConnectionFlood = AnomalyType.LatencySpike)] at hL
      rw [if_neg (by decide : ¬ AnomalyType.ConnectionFlood = AnomalyType.ErrorRateHigh)] at hE
      omega

/-- When a type is on cooldown, the tick emits no event of that type. -/
theorem detectEvents_filter_nil_of_cooldown (d1 : AnomalyDetector) (now : Nat) (r : ℚ)
    (l : Nat) (er : ℚ) (c : Nat) {ty : AnomalyType}
    (hc : on_cooldown d1 now ty = true) :
    (detectEvents d1 now r l er c).filter (fun ev => ev.anomaly_type = ty) = [] := by
  unfold detectEvents
  rw [List.filter_append, List.filter_append, List.filter_append]
  cases ty with
  | TrafficSpike =>
      rw [detect_spike_none_of_cooldown hc,
        optPiece_filter_nil_of_ne (detect_latency d1 now l) AnomalyType.LatencySpike (fun e h => (detect_latency_some h).1) (by decide),
        optPiece_filter_nil_of_ne (detect_error_rate d1 now er) AnomalyType.ErrorRateHigh (fun e h => (detect_error_rate_some h).1) (by decide),
        optPiece_filter_nil_of_ne (detect_connection_flood d1 now c) AnomalyType.ConnectionFlood (fun e h => (detect_connection_flood_some h).1) (by decide)]
      rfl
  | LatencySpike =>
      rw [detect_latency_none_of_cooldown hc,
        optPiece_filter_nil_of_ne (detect_spike d1 now r) AnomalyType.TrafficSpike (fun e h => (detect_spike_some h).1) (by decide),
        optPiece_filter_nil_of_ne (detect_error_rate d1 now er) AnomalyType.ErrorRateHigh (fun e h => (detect_error_rate_some h).1) (by decide),
        optPiece_filter_nil_of_ne (detect_connection_flood d1 now c) AnomalyType.ConnectionFlood (fun e h => (detect_connection_flood_some h).1) (by decide)]
      rfl
  | ErrorRateHigh =>
      rw [detect_error_rate_none_of_cooldown hc,
        optPiece_filter_nil_of_ne (detect_spike d1 now r) AnomalyType.TrafficSpike (fun e h => (detect_spike_some h).1) (by decide),
        optPiece_filter_nil_of_ne (detect_latency d1 now l) AnomalyType.LatencySpike (fun e h => (detect_latency_some h).1) (by decide),
        optPiece_filter_nil_of_ne (detect_connection_flood d1 now c) AnomalyType.ConnectionFlood (fun e h => (detect_connection_flood_some h).1) (by decide)]
      rfl
  | ConnectionFlood =>
      rw [detect_connection_flood_none_of_cooldown hc,
        optPiece_filter_nil_of_ne (detect_spike d1 now r) AnomalyType.TrafficSpike (fun e h => (detect_spike_some h).1) (by decide),
        optPiece_filter_nil_of_ne (detect_latency d1 now l) AnomalyType.LatencySpike (fun e h => (detect_latency_some h).1) (by decide),
        optPiece_filter_nil_of_ne (detect_error_rate d1 now er) AnomalyType.ErrorRateHigh (fun e h => (detect_error_rate_some h).1) (by decide)]
      rfl

/-- **C5.** Cooldown discipline of `detect`: (1) an event of a type is
never emitted while that type is on cooldown (`now − last_emitted < 30 s`);
(2) every emitted event stamps the cooldown map with the tick's time; and
(3) two consecutive `detect` calls within 30 s of each other emit at most
one event of any given type between them — regardless of how extreme the
presented values are. -/
theorem detect_cooldown_at_most_one (d : AnomalyDetector) (now1 now2 : Nat)
    (r1 r2 : ℚ) (l1 l2 : Nat) (er1 er2 : ℚ) (c1 c2 : Nat) (ty : AnomalyType)
    (hgap : now2 - now1 < ALERT_COOLDOWN) :
    (∀ ev ∈ (detect d now1 r1 l1 er1 c1).1, on_cooldown d now1 ev.anomaly_type = false) ∧
    (∀ ev ∈ (detect d now1 r1 l1 er1 c1).1,
      (detect d now1 r1 l1 er1 c1).2.last_alert ev.anomaly_type = some now1) ∧
    ((detect d now1 r1 l1 er1 c1).1.filter (fun ev => ev.anomaly_type = ty)).length
      + ((detect (detect d now1 r1 l1 er1 c1).2 now2 r2 l2 er2 c2).1.filter
          (fun ev => ev.anomaly_type = ty)).length ≤ 1 := by
  by_cases hen : d.config.enabled
  · have hf1 := @detect_fst d now1 r1 l1 er1 c1 hen
    have hmem : ∀ ev ∈ (detect d now1 r1 l1 er1 c1).1,
        on_cooldown d now1 ev.anomaly_type = false := by
      intro ev hev
      rw [hf1] at hev
      unfold detectEvents at hev
      rw [← on_cooldown_cleanup d now1 now1 ev.anomaly_type]
      rcases List.mem_append.mp hev with hev | hF
      · rcases List.mem_append.mp hev with hev | hE
        · rcases List.mem_append.mp hev with hS | hL
          · have h := detect_spike_some (Option.mem_def.mp (Option.mem_toList.mp hS))
            rw [h.1]
            exact h.2
          · have h := detect_latency_some (Option.mem_def.mp (Option.mem_toList.mp hL))
            rw [h.1]
            exact h.2
        · have h := detect_error_rate_some (Option.mem_def.mp (Option.mem_toList.mp hE))
          rw [h.1]
          exact h.2
      · have h := detect_connection_flood_some
          (Option.mem_def.mp (Option.mem_toList.mp hF))
        rw [h.1]
        exact h.2
    have hstamp : ∀ ev ∈ (detect d now1 r1 l1 er1 c1).1,
        (detect d now1 r1 l1 er1 c1).2.last_alert ev.anomaly_type = some now1 := by
      intro ev hev
      rw [detect_snd_last_alert hen]
      apply alertFold_of_mem
      refine ⟨ev, ?_, rfl⟩
      rw [← hf1]
      exact hev
    refine ⟨hmem, hstamp, ?_⟩
    have hen2 : (detect d now1 r1 l1 er1 c1).2.config.enabled = true := by
      rw [detect_snd_config]
      exact hen
    by_cases hex : ∃ e ∈ (detect d now1 r1 l1 er1 c1).1, e.anomaly_type = ty
    · obtain ⟨e, he, het⟩ := hex
      have hlast : (detect d now1 r1 l1 er1 c1).2.last_alert ty = some now1 := by
        rw [← het]
        exact hstamp e he
      have hcd2 : on_cooldown (ad_cleanup (detect d now1 r1 l1 er1 c1).2 now2) now2 ty
          = true := by
        rw [on_cooldown_cleanup]
        unfold on_cooldown
        rw [hlast]
        exact decide_eq_true hgap
      have hnil2 : (detect (detect d now1 r1 l1 er1 c1).2 now2 r2 l2 er2 c2).1.filter
          (fun ev => ev.anomaly_type = ty) = [] := by
        rw [detect_fst hen2]
        exact detectEvents_filter_nil_of_cooldown _ now2 r2 l2 er2 c2 hcd2
      rw [hnil2, hf1]
      simp only [List.length_nil, Nat.add_zero]
      exact detectEvents_count_le_one _ now1 r1 l1 er1 c1 ty
    · have hnil1 : (detect d now1 r1 l1 er1 c1).1.filter
          (fun ev => ev.anomaly_type = ty) = [] := by
        rw [List.filter_eq_nil_iff]
        intro e he
        simp only [decide_eq_true_eq]
        exact fun het => hex ⟨e, he, het⟩
      rw [hnil1]
      simp only [List.length_nil, Nat.zero_add]
      rw [detect_fst hen2]
      exact detectEvents_count_le_one _ now2 r2 l2 er2 c2 ty
  · have hen' : d.config.enabled = false := by simpa using hen
    have hf1 := @detect_fst_disabled d now1 r1 l1 er1 c1 hen'
    have hs1 := @detect_snd_disabled d now1 r1 l1 er1 c1 hen'
    refine ⟨?_, ?_, ?_⟩
    · intro ev hev
      rw [hf1] at hev
      exact absurd hev (List.not_mem_nil ev)
    · intro ev hev
      rw [hf1] at hev
      exact absurd hev (List.not_mem_nil ev)
    · rw [hf1, hs1, detect_fst_disabled hen']
      simp

/-- The concrete detector for the cooldown witness: enabled, latency
threshold 100 ms, no history, empty cooldown map. -/
def adW : AnomalyDetector :=
  { config :=
      { enabled := true, spike_threshold := 3, latency_threshold_ms := 100,
        error_rate_threshold := 1, connection_threshold := 50, check_interval_secs := 10 }
    request_rates := []
    latency_history := []
    error_rates := []
    event_history := []
    last_alert := fun _ => none }

/-- Witness for the cooldown theorem: two `detect` calls 10 s apart with a
200 ms latency (over the 100 ms threshold) emit at most one LatencySpike
between them, and the first call respects and stamps the cooldown map. -/
theorem detect_cooldown_at_most_one_witness :
    (∀ ev ∈ (detect adW 0 0 200000000 0 0).1, on_cooldown adW 0 ev.anomaly_type = false) ∧
    (∀ ev ∈ (detect adW 0 0 200000000 0 0).1,
      (detect adW 0 0 200000000 0 0).2.last_alert ev.anomaly_type = some 0) ∧
    ((detect adW 0 0 200000000 0 0).1.filter
        (fun ev => ev.anomaly_type = AnomalyType.LatencySpike)).length
      + ((detect (detect adW 0 0 200000000 0 0).2 10000000000 0 200000000 0 0).1.filter
          (fun ev => ev.anomaly_type = AnomalyType.LatencySpike)).length ≤ 1 :=
  detect_cooldown_at_most_one adW 0 10000000000 0 0 200000000 200000000 0 0 0 0
    AnomalyType.LatencySpike (by decide)

/-! ## HTTP protocol helpers (`src/vulpini/src/protocol/http.rs`)

Strings are `List Char`; request/input bytes are `Nat` (< 256). -/

/-- The standard base64 alphabet used by `HttpProtocol::decode_base64`. -/
def B64_ALPHABET : List Char :=
  "ABCDEFGHIJKLMNOPQRSTUVWXYZabcdefghijklmnopqrstuvwxyz0123456789+/".toList

/-- The `lookup` table of `decode_base64`: index in the alphabet, `0xff`
for anything else.  The Rust table is byte-indexed; alphabet characters
are single-byte, and every byte of a non-alphabet character (ASCII or the
bytes of a multi-byte UTF-8 character) maps to `0xff`, so the char-level
model agrees on both the decoded bytes and the `None` outcome. -/
def b64Val (c : Char) : Nat :=
  if B64_ALPHABET.indexOf c < 64 then B64_ALPHABET.indexOf c else 255

/-- Rust `char::is_whitespace` (the Unicode White_Space set), for
`str::trim`. -/
def rustIsWhitespace (c : Char) : Bool :=
  (0x09 ≤ c.toNat && c.toNat ≤ 0x0D) || c.toNat = 0x20 || c.toNat = 0x85
    || c.toNat = 0xA0 || c.toNat = 0x1680
    || (0x2000 ≤ c.toNat && c.toNat ≤ 0x200A)
    || c.toNat = 0x2028 || c.toNat = 0x2029 || c.toNat = 0x202F
    || c.toNat = 0x205F || c.toNat = 0x3000

/-- `str::trim`: strip leading and trailing whitespace. -/
def trimRust (s : List Char) : List Char :=
  ((s.dropWhile rustIsWhitespace).reverse.dropWhile rustIsWhitespace).reverse

/-- `str::trim_end_matches('=')`: strip every trailing `'='`. -/
def stripTrailingEq (s : List Char) : List Char :=
  (s.reverse.dropWhile (fun c => c = '=')).reverse

/-- The 6-bit accumulator loop of `decode_base64`.  `buf` is the `u32`
accumulator (`(buf << 6) | val` is `(buf * 64 + val) % 2^32` since
`val < 64`), and `(buf >> bits) as u8` is `buf / 2^bits % 256`. -/
def b64DecLoop : Nat → Nat → List Nat → List Char → Option (List Nat)
  | _, _, acc, [] => some acc
  | buf, bits, acc, ch :: rest =>
      if b64Val ch = 255 then none
      else
        if 8 ≤ bits + 6 then
          b64DecLoop ((buf * 64 + b64Val ch) % 4294967296) (bits + 6 - 8)
            (acc ++ [(buf * 64 + b64Val ch) % 4294967296 / 2 ^ (bits + 6 - 8) % 256]) rest
        else
          b64DecLoop ((buf * 64 + b64Val ch) % 4294967296) (bits + 6) acc rest

/-- `HttpProtocol::decode_base64` (http.rs lines 90–112): trim, strip the
trailing padding, then run the 6-bit accumulator; any remaining
non-alphabet character aborts with `None`. -/
def decode_base64 (s : List Char) : Option (List Nat) :=
  b64DecLoop 0 0 [] (stripTrailingEq (trimRust s))

/-- Character of a 6-bit value (claim-side helper for the RFC 4648
reference encoder). -/
def b64Char (v : Nat) : Char := B64_ALPHABET.getD v 'A'

/-- The RFC 4648 base64 encoding of a byte sequence, without padding —
the claim-side reference definition. -/
def encodeB64Core : List Nat → List Char
  | [] => []
  | [x] => [b64Char (x / 4), b64Char (x % 4 * 16)]
  | [x, y] => [b64Char (x / 4), b64Char (x % 4 * 16 + y / 16), b64Char (y % 16 * 4)]
  | x :: y :: z :: rest =>
      b64Char (x / 4) :: b64Char (x % 4 * 16 + y / 16) :: b64Char (y % 16 * 4 + z / 64)
        :: b64Char (z % 64) :: encodeB64Core rest

/-- RFC 4648 `'='` padding for a byte sequence of the given length. -/
def b64Padding (b : List Nat) : List Char :=
  match b.length % 3 with
  | 1 => ['=', '=']
  | 2 => ['=']
  | _ => []

/-- RFC 4648 base64 with padding (claim-side reference). -/
def encodeB64Padded (b : List Nat) : List Char := encodeB64Core b ++ b64Padding b

/-! ### Base64 round trip and rejection (claim C10) -/

theorem b64Val_b64Char : ∀ v, v < 64 → b64Val (b64Char v) = v := by decide

/-- One valid step of the decode loop. -/
theorem decLoop_cons_valid {ch : Char} {v : Nat} (hv : b64Val ch = v) (hlt : v < 64)
    (buf bits : Nat) (acc : List Nat) (rest : List Char) :
    b64DecLoop buf bits acc (ch :: rest)
      = if 8 ≤ bits + 6 then
          b64DecLoop ((buf * 64 + v) % 4294967296) (bits + 6 - 8)
            (acc ++ [(buf * 64 + v) % 4294967296 / 2 ^ (bits + 6 - 8) % 256]) rest
        else b64DecLoop ((buf * 64 + v) % 4294967296) (bits + 6) acc rest := by
  show (if b64Val ch = 255 then none
    else
      if 8 ≤ bits + 6 then
        b64DecLoop ((buf * 64 + b64Val ch) % 4294967296) (bits + 6 - 8)
          (acc ++ [(buf * 64 + b64Val ch) % 4294967296 / 2 ^ (bits + 6 - 8) % 256]) rest
      else b64DecLoop ((buf * 64 + b64Val ch) % 4294967296) (bits + 6) acc rest) = _
  rw [hv, if_neg (by omega : ¬ v = 255)]

/-- Decoding the unpadded encoding of a byte list appends exactly those
bytes, from any `u32` accumulator state at bit phase 0. -/
theorem decLoop_enc : ∀ (b : List Nat), (∀ a ∈ b, a < 256) →
    ∀ (buf : Nat) (acc : List Nat),
      b64DecLoop buf 0 acc (encodeB64Core b) = some (acc ++ b) := by
  intro b
  induction b using encodeB64Core.induct with
  | case1 =>
      intro _ buf acc
      simp [encodeB64Core, b64DecLoop]
  | case2 x =>
      intro hb buf acc
      have hx : x < 256 := hb x (by simp)
      show b64DecLoop buf 0 acc [b64Char (x / 4), b64Char (x % 4 * 16)] = some (acc ++ [x])
      rw [decLoop_cons_valid (b64Val_b64Char (x / 4) (by omega)) (by omega),
        if_neg (by omega : ¬ 8 ≤ 0 + 6)]
      rw [decLoop_cons_valid (b64Val_b64Char (x % 4 * 16) (by omega)) (by omega),
        if_pos (by omega : 8 ≤ 0 + 6 + 6)]
      show some _ = _
      have hexp : (2 : Nat) ^ (0 + 6 + 6 - 8) = 16 := by norm_num
      rw [hexp]
      have hp : ((buf * 64 + x / 4) % 4294967296 * 64 + x % 4 * 16) % 4294967296 / 16 % 256
          = x := by omega
      rw [hp]
  | case3 x y =>
      intro hb buf acc
      have hx : x < 256 := hb x (by simp)
      have hy : y < 256 := hb y (by simp)
      show b64DecLoop buf 0 acc
          [b64Char (x / 4), b64Char (x % 4 * 16 + y / 16), b64Char (y % 16 * 4)]
        = some (acc ++ [x, y])
      rw [decLoop_cons_valid (b64Val_b64Char (x / 4) (by omega)) (by omega),
        if_neg (by omega : ¬ 8 ≤ 0 + 6)]
      rw [decLoop_cons_valid (b64Val_b64Char (x % 4 * 16 + y / 16) (by omega)) (by omega),
        if_pos (by omega : 8 ≤ 0 + 6 + 6)]
      rw [decLoop_cons_valid (b64Val_b64Char (y % 16 * 4) (by omega)) (by omega),
        if_pos (by omega : 8 ≤ 0 + 6 + 6 - 8 + 6)]
      show some _ = _
      have hexp1 : (2 : Nat) ^ (0 + 6 + 6 - 8) = 16 := by norm_num
      have hexp2 : (2 : Nat) ^ (0 + 6 + 6 - 8 + 6 - 8) = 4 := by norm_num
      rw [hexp1, hexp2]
      have hp1 : ((buf * 64 + x / 4) % 4294967296 * 64 + (x % 4 * 16 + y / 16))
          % 4294967296 / 16 % 256 = x := by omega
      have hp2 : (((buf * 64 + x / 4) % 4294967296 * 64 + (x % 4 * 16 + y / 16))
          % 4294967296 * 64 + y % 16 * 4) % 4294967296 / 4 % 256 = y := by omega
      rw [hp1, hp2]
      simp
  | case4 x y z rest ih =>
      intro hb buf acc
      have hx : x < 256 := hb x (by simp)
      have hy : y < 256 := hb y (by simp)
      have hz : z < 256 := hb z (by simp)
      have hbr : ∀ a ∈ rest, a < 256 := fun a ha => hb a (by simp [ha])
      show b64DecLoop buf 0 acc
          (b64Char (x / 4) :: b64Char (x % 4 * 16 + y / 16) :: b64Char (y % 16 * 4 + z / 64)
            :: b64Char (z % 64) :: encodeB64Core rest)
        = some (acc ++ x :: y :: z :: rest)
      rw [decLoop_cons_valid (b64Val_b64Char (x / 4) (by omega)) (by omega),
        if_neg (by omega : ¬ 8 ≤ 0 + 6)]
      rw [decLoop_cons_valid (b64Val_b64Char (x % 4 * 16 + y / 16) (by omega)) (by omega),
        if_pos (by omega : 8 ≤ 0 + 6 + 6)]
      rw [decLoop_cons_valid (b64Val_b64Char (y % 16 * 4 + z / 64) (by omega)) (by omega),
        if_pos (by omega : 8 ≤ 0 + 6 + 6 - 8 + 6)]
      rw [decLoop_cons_valid (b64Val_b64Char (z % 64) (by omega)) (by omega),
        if_pos (by omega : 8 ≤ 0 + 6 + 6 - 8 + 6 - 8 + 6)]
      have hexp1 : (2 : Nat) ^ (0 + 6 + 6 - 8) = 16 := by norm_num
      have hexp2 : (2 : Nat) ^ (0 + 6 + 6 - 8 + 6 - 8) = 4 := by norm_num
      have hexp3 : (2 : Nat) ^ (0 + 6 + 6 - 8 + 6 - 8 + 6 - 8) = 1 := by norm_num
      rw [hexp1, hexp2, hexp3]
      have hbits : (0 + 6 + 6 - 8 + 6 - 8 + 6 - 8 : Nat) = 0 := by norm_num
      rw [hbits]
      rw [ih hbr]
      have hp1 : ((buf * 64 + x / 4) % 4294967296 * 64 + (x % 4 * 16 + y / 16))
          % 4294967296 / 16 % 256 = x := by omega
      have hp2 : (((buf * 64 + x / 4) % 4294967296 * 64 + (x % 4 * 16 + y / 16))
          % 4294967296 * 64 + (y % 16 * 4 + z / 64)) % 4294967296 / 4 % 256 = y := by omega
      have hp3 : ((((buf * 64 + x / 4) % 4294967296 * 64 + (x % 4 * 16 + y / 16))
          % 4294967296 * 64 + (y % 16 * 4 + z / 64)) % 4294967296 * 64 + z % 64)
          % 4294967296 / 1 % 256 = z := by omega
      rw [hp1, hp2, hp3]
      simp

theorem dropWhile_eq_self_of_none {p : α → Bool} :
    ∀ l : List α, (∀ c ∈ l, p c = false) → l.dropWhile p = l := by
  intro l h
  cases l with
  | nil => rfl
  | cons a t =>
      rw [List.dropWhile_cons, h a (List.mem_cons_self a t)]
      simp

/-- Alphabet characters (and the fallback `'A'`) are neither whitespace
nor `'='`. -/
theorem b64Char_not_ws_not_eq : ∀ v : Nat,
    rustIsWhitespace (b64Char v) = false ∧ ¬ b64Char v = '=' := by
  have h64 : ∀ v, v < 64 → rustIsWhitespace (b64Char v) = false ∧ ¬ b64Char v = '=' := by
    decide
  intro v
  by_cases h : v < 64
  · exact h64 v h
  · have hA : b64Char v = 'A' := by
      unfold b64Char
      apply List.getD_eq_default
      have : B64_ALPHABET.length = 64 := by decide
      omega
    rw [hA]
    exact ⟨by decide, by decide⟩

theorem encodeB64Core_chars :
    ∀ b : List Nat, ∀ c ∈ encodeB64Core b,
      rustIsWhitespace c = false ∧ ¬ c = '=' := by
  intro b
  induction b using encodeB64Core.induct with
  | case1 => intro c hc; exact absurd hc (List.not_mem_nil c)
  | case2 x =>
      intro c hc
      rcases List.mem_cons.mp hc with rfl | hc
      · exact b64Char_not_ws_not_eq _
      · rcases List.mem_cons.mp hc with rfl | hc
        · exact b64Char_not_ws_not_eq _
        · exact absurd hc (List.not_mem_nil c)
  | case3 x y =>
      intro c hc
      rcases List.mem_cons.mp hc with rfl | hc
      · exact b64Char_not_ws_not_eq _
      · rcases List.mem_cons.mp hc with rfl | hc
        · exact b64Char_not_ws_not_eq _
        · rcases List.mem_cons.mp hc with rfl | hc
          · exact b64Char_not_ws_not_eq _
          · exact absurd hc (List.not_mem_nil c)
  | case4 x y z rest ih =>
      intro c hc
      rcases List.mem_cons.mp hc with rfl | hc
      · exact b64Char_not_ws_not_eq _
      · rcases List.mem_cons.mp hc with rfl | hc
        · exact b64Char_not_ws_not_eq _
        · rcases List.mem_cons.mp hc with rfl | hc
          · exact b64Char_not_ws_not_eq _
          · rcases List.mem_cons.mp hc with rfl | hc
            · exact b64Char_not_ws_not_eq _
            · exact ih c hc

theorem trimRust_eq_self (l : List Char) (h : ∀ c ∈ l, rustIsWhitespace c = false) :
    trimRust l = l := by
  unfold trimRust
  rw [dropWhile_eq_self_of_none l h,
    dropWhile_eq_self_of_none l.reverse (fun c hc => h c (List.mem_reverse.mp hc)),
    List.reverse_reverse]

theorem dropWhile_append_of_all {p : α → Bool} :
    ∀ (l1 l2 : List α), (∀ c ∈ l1, p c = true) →
      (l1 ++ l2).dropWhile p = l2.dropWhile p := by
  intro l1
  induction l1 with
  | nil => intro l2 _; rfl
  | cons a t ih =>
      intro l2 h
      rw [List.cons_append, List.dropWhile_cons, h a (List.mem_cons_self a t)]
      simp only [if_true]
      exact ih l2 (fun c hc => h c (List.mem_cons_of_mem a hc))

theorem stripTrailingEq_eq_self (l : List Char) (h : ∀ c ∈ l, ¬ c = '=') :
    stripTrailingEq l = l := by
  unfold stripTrailingEq
  rw [dropWhile_eq_self_of_none l.reverse
    (fun c hc => decide_eq_false (h c (List.mem_reverse.mp hc))), List.reverse_reverse]

theorem stripTrailingEq_append_pads (core pads : List Char)
    (hcore : ∀ c ∈ core, ¬ c = '=') (hpads : ∀ c ∈ pads, c = '=') :
    stripTrailingEq (core ++ pads) = core := by
  unfold stripTrailingEq
  rw [List.reverse_append]
  rw [dropWhile_append_of_all pads.reverse core.reverse
    (fun c hc => decide_eq_true (hpads c (List.mem_reverse.mp hc)))]
  rw [dropWhile_eq_self_of_none core.reverse
    (fun c hc => decide_eq_false (hcore c (List.mem_reverse.mp hc))), List.reverse_reverse]

theorem b64Padding_chars (b : List Nat) : ∀ c ∈ b64Padding b, c = '=' := by
  unfold b64Padding
  split
  · intro c hc
    rcases List.mem_cons.mp hc with rfl | hc
    · rfl
    · rcases List.mem_cons.mp hc with rfl | hc
      · rfl
      · exact absurd hc (List.not_mem_nil c)
  · intro c hc
    rcases List.mem_cons.mp hc with rfl | hc
    · rfl
    · exact absurd hc (List.not_mem_nil c)
  · intro c hc
    exact absurd hc (List.not_mem_nil c)

theorem decLoop_none_of_invalid :
    ∀ (l : List Char) (buf bits : Nat) (acc : List Nat),
      (∃ c ∈ l, b64Val c = 255) → b64DecLoop buf bits acc l = none := by
  intro l
  induction l with
  | nil =>
      intro _ _ _ h
      obtain ⟨c, hc, _⟩ := h
      exact absurd hc (List.not_mem_nil c)
  | cons ch rest ih =>
      intro buf bits acc hex
      show (if b64Val ch = 255 then none
        else
          if 8 ≤ bits + 6 then
            b64DecLoop ((buf * 64 + b64Val ch) % 4294967296) (bits + 6 - 8)
              (acc ++ [(buf * 64 + b64Val ch) % 4294967296 / 2 ^ (bits + 6 - 8) % 256]) rest
          else b64DecLoop ((buf * 64 + b64Val ch) % 4294967296) (bits + 6) acc rest) = none
      by_cases hv : b64Val ch = 255
      · rw [if_pos hv]
      · rw [if_neg hv]
        have hrest : ∃ c ∈ rest, b64Val c = 255 := by
          obtain ⟨c, hc, hcv⟩ := hex
          rcases List.mem_cons.mp hc with rfl | hc
          · exact absurd hcv hv
          · exact ⟨c, hc, hcv⟩
        by_cases hb : 8 ≤ bits + 6
        · rw [if_pos hb]
          exact ih _ _ _ hrest
        · rw [if_neg hb]
          exact ih _ _ _ hrest

/-- **C10.** `decode_base64` inverts the RFC 4648 encoding — with or
without trailing `'='` padding — returning exactly the original bytes;
and it returns `None` for every input that, after the surrounding
whitespace is trimmed and the trailing `'='` stripped, still contains a
character outside the 64-character alphabet. -/
theorem decode_base64_spec (b : List Nat) (hb : ∀ a ∈ b, a < 256) (s : List Char)
    (hs : ∃ c ∈ stripTrailingEq (trimRust s), b64Val c = 255) :
    decode_base64 (encodeB64Core b) = some b ∧
    decode_base64 (encodeB64Padded b) = some b ∧
    decode_base64 s = none := by
  have hchars := encodeB64Core_chars b
  refine ⟨?_, ?_, decLoop_none_of_invalid _ 0 0 [] hs⟩
  · unfold decode_base64
    rw [trimRust_eq_self _ (fun c hc => (hchars c hc).1),
      stripTrailingEq_eq_self _ (fun c hc => (hchars c hc).2)]
    simpa using decLoop_enc b hb 0 []
  · unfold decode_base64 encodeB64Padded
    rw [trimRust_eq_self _ ?hws]
    case hws =>
      intro c hc
      rcases List.mem_append.mp hc with hc | hc
      · exact (hchars c hc).1
      · rw [b64Padding_chars b c hc]
        decide
    rw [stripTrailingEq_append_pads _ _ (fun c hc => (hchars c hc).2) (b64Padding_chars b)]
    simpa using decLoop_enc b hb 0 []

/-- Witness for the base64 theorem: `"hello"` round-trips through
`"aGVsbG8="`/`"aGVsbG8"`, and `"!!!"` is rejected. -/
theorem decode_base64_spec_witness :
    decode_base64 (encodeB64Core [104, 101, 108, 108, 111])
      = some [104, 101, 108, 108, 111] ∧
    decode_base64 (encodeB64Padded [104, 101, 108, 108, 111])
      = some [104, 101, 108, 108, 111] ∧
    decode_base64 ['!', '!', '!'] = none :=
  decode_base64_spec [104, 101, 108, 108, 111] (by decide) ['!', '!', '!'] (by decide)

/-! ### Forward-request preparation (claim C6) -/

/-- `str::lines().next().unwrap_or("")`: the text up to the first `'\n'`;
when a `'\n'` exists, one trailing `'\r'` is stripped from the line; a
string with no `'\n'` (including the empty string) is returned whole. -/
def rustFirstLine (s : List Char) : List Char :=
  if (s.takeWhile (fun c => ¬ c = '\n')).length = s.length then s
  else if (s.takeWhile (fun c => ¬ c = '\n')).getLast? = some '\r' then
    (s.takeWhile (fun c => ¬ c = '\n')).dropLast
  else s.takeWhile (fun c => ¬ c = '\n')

/-- `str::split_whitespace().nth(n)`: skip whitespace runs, return the
n-th token (`none` when fewer tokens exist). -/
def splitWsNth : Nat → List Char → Option (List Char)
  | n, s =>
      match s.dropWhile rustIsWhitespace with
      | [] => none
      | c :: cs =>
          match n with
          | 0 => some ((c :: cs).takeWhile (fun x => rustIsWhitespace x = false))
          | n + 1 => splitWsNth n ((c :: cs).dropWhile (fun x => rustIsWhitespace x = false))

/-- `str::find(pat)` followed by slicing: split at the leftmost occurrence
of `pat`, returning the text before it and the text after it. -/
def breakOn (pat : List Char) : List Char → Option (List Char × List Char)
  | [] => none
  | c :: rest =>
      if pat.isPrefixOf (c :: rest) then some ([], (c :: rest).drop pat.length)
      else
        match breakOn pat rest with
        | some (l, r) => some (c :: l, r)
        | none => none

/-- `str::split("\r\n")` (fuel-driven; the fuel is always chosen larger
than the input length, which the occurrence-consuming recursion never
needs exceeding). -/
def splitOnCRLF : Nat → List Char → List (List Char)
  | 0, s => [s]
  | fuel + 1, s =>
      match breakOn ['\r', '\n'] s with
      | none => [s]
      | some (l, r) => l :: splitOnCRLF fuel r

/-- `Vec::join("\r\n")`. -/
def joinCRLF : List (List Char) → List Char
  | [] => []
  | [h] => h
  | h :: rest => h ++ '\r' :: '\n' :: joinCRLF rest

/-- `str::to_lowercase`, per character (`Char.toLower` lowers exactly the
ASCII range; the header names compared against are ASCII). -/
def lowerCL (s : List Char) : List Char := s.map Char.toLower

/-- The header filter of `prepare_forward_request`: drop empty lines and
the `Proxy-Authorization`/`Connection` headers (case-insensitive). -/
def headerKeep (l : List Char) : Bool :=
  !l.isEmpty
    && !(("proxy-authorization:".toList).isPrefixOf (lowerCL l))
    && !(("connection:".toList).isPrefixOf (lowerCL l))

/-- `HttpProtocol::prepare_forward_request` (http.rs lines 183–219):
rewrite or keep the first line, split off the headers and body, filter the
headers, inject `Connection: close`, reattach the body. -/
def prepare_forward_request (request : List Char) (rewrite_path : Option (List Char)) :
    List Char :=
  let first_line := rustFirstLine request
  let new_first_line :=
    match rewrite_path with
    | some path =>
        ((splitWsNth 0 first_line).getD "GET".toList)
          ++ ' ' :: path ++ ' ' :: ((splitWsNth 2 first_line).getD "HTTP/1.1".toList)
          ++ ['\r', '\n']
    | none => first_line ++ ['\r', '\n']
  let after_first :=
    match breakOn ['\r', '\n'] request with
    | some lr => lr.2
    | none => []
  let hb :=
    match breakOn ['\r', '\n', '\r', '\n'] after_first with
    | some lr => lr
    | none => (after_first, [])
  let joined := joinCRLF ((splitOnCRLF (hb.1.length + 1) hb.1).filter headerKeep)
  let sep : List Char := if joined.isEmpty then [] else ['\r', '\n']
  if hb.2.isEmpty then
    new_first_line ++ joined ++ sep ++ "Connection: close\r\n\r\n".toList
  else
    new_first_line ++ joined ++ sep ++ "Connection: close\r\n\r\n".toList ++ hb.2

theorem takeWhile_not_nl :
    ∀ (L : List Char), (∀ c ∈ L, ¬ c = '\n') → ∀ rest : List Char,
      ((L ++ '\r' :: '\n' :: rest).takeWhile (fun c => ¬ c = '\n')) = L ++ ['\r'] := by
  intro L
  induction L with
  | nil =>
      intro _ rest
      simp [List.takeWhile_cons]
  | cons c L ih =>
      intro h rest
      rw [List.cons_append, List.takeWhile_cons]
      have hc : ¬ c = '\n' := h c (List.mem_cons_self c L)
      simp only [hc, not_false_eq_true, decide_True, if_true]
      rw [ih (fun x hx => h x (List.mem_cons_of_mem c hx)) rest]
      rfl

/-- The first line of `FL ++ "\r\n" ++ rest` is `FL` when `FL` contains no
line-break characters. -/
theorem rustFirstLine_append (L : List Char) (rest : List Char)
    (h : ∀ c ∈ L, ¬ c = '\n') :
    rustFirstLine (L ++ '\r' :: '\n' :: rest) = L := by
  unfold rustFirstLine
  rw [takeWhile_not_nl L h rest]
  rw [if_neg (by simp)]
  rw [if_pos (by rw [List.getLast?_concat])]
  rw [List.dropLast_concat]

theorem isPrefixOf_cons_of_ne {a b : Char} (h : ¬ a = b) (as bs : List Char) :
    (a :: as).isPrefixOf (b :: bs) = false := by
  simp [List.isPrefixOf, h]

theorem breakOn_crlf_of_no_cr :
    ∀ (L : List Char), (∀ c ∈ L, ¬ c = '\r') → ∀ rest : List Char,
      breakOn ['\r', '\n'] (L ++ '\r' :: '\n' :: rest) = some (L, rest) := by
  intro L
  induction L with
  | nil =>
      intro _ rest
      show breakOn ['\r', '\n'] ('\r' :: '\n' :: rest) = some ([], rest)
      unfold breakOn
      rw [if_pos (by simp [List.isPrefixOf])]
      rfl
  | cons c L ih =>
      intro h rest
      have hc : ¬ c = '\r' := h c (List.mem_cons_self c L)
      rw [List.cons_append]
      show (if (['\r', '\n'] : List Char).isPrefixOf (c :: (L ++ '\r' :: '\n' :: rest))
          then some ([], (c :: (L ++ '\r' :: '\n' :: rest)).drop 2)
          else
            match breakOn ['\r', '\n'] (L ++ '\r' :: '\n' :: rest) with
            | some (l, r) => some (c :: l, r)
            | none => none) = some (c :: L, rest)
      rw [isPrefixOf_cons_of_ne (fun hh => hc hh.symm)]
      simp only [Bool.false_eq_true, if_false]
      rw [ih (fun x hx => h x (List.mem_cons_of_mem c hx)) rest]

theorem breakOn_none_of_no_cr :
    ∀ (L : List Char), (∀ c ∈ L, ¬ c = '\r') → breakOn ['\r', '\n'] L = none := by
  intro L
  induction L with
  | nil => intro _; rfl
  | cons c L ih =>
      intro h
      have hc : ¬ c = '\r' := h c (List.mem_cons_self c L)
      show (if (['\r', '\n'] : List Char).isPrefixOf (c :: L)
          then some ([], (c :: L).drop 2)
          else
            match breakOn ['\r', '\n'] L with
            | some (l, r) => some (c :: l, r)
            | none => none) = none
      rw [isPrefixOf_cons_of_ne (fun hh => hc hh.symm)]
      simp only [Bool.false_eq_true, if_false]
      rw [ih (fun x hx => h x (List.mem_cons_of_mem c hx))]

theorem splitWsNth_zero_eq {s : List Char} {c : Char} {cs : List Char}
    (h : s.dropWhile rustIsWhitespace = c :: cs) :
    splitWsNth 0 s = some ((c :: cs).takeWhile (fun x => rustIsWhitespace x = false)) := by
  unfold splitWsNth
  rw [h]

theorem splitWsNth_succ_eq {n : Nat} {s : List Char} {c : Char} {cs : List Char}
    (h : s.dropWhile rustIsWhitespace = c :: cs) :
    splitWsNth (n + 1) s
      = splitWsNth n ((c :: cs).dropWhile (fun x => rustIsWhitespace x = false)) := by
  conv_lhs => rw [splitWsNth]
  rw [h]

theorem dropWhile_ws_of_head (T : List Char) (hT : T ≠ [])
    (hTc : ∀ c ∈ T, rustIsWhitespace c = false) :
    ∀ rest : List Char, (T ++ rest).dropWhile rustIsWhitespace = T ++ rest := by
  intro rest
  cases T with
  | nil => exact absurd rfl hT
  | cons t0 T' =>
      rw [List.cons_append, List.dropWhile_cons,
        hTc t0 (List.mem_cons_self t0 T')]
      simp

theorem takeWhile_nonws_append (T : List Char)
    (hTc : ∀ c ∈ T, rustIsWhitespace c = false) :
    ∀ rest : List Char,
      ((T ++ ' ' :: rest).takeWhile (fun x => rustIsWhitespace x = false)) = T := by
  induction T with
  | nil =>
      intro rest
      rw [List.nil_append, List.takeWhile_cons]
      simp [rustIsWhitespace]
  | cons t0 T' ih =>
      intro rest
      rw [List.cons_append, List.takeWhile_cons]
      rw [hTc t0 (List.mem_cons_self t0 T')]
      simp only [decide_True, if_true]
      rw [ih (fun c hc => hTc c (List.mem_cons_of_mem t0 hc)) rest]

theorem takeWhile_nonws_self (T : List Char)
    (hTc : ∀ c ∈ T, rustIsWhitespace c = false) :
    (T.takeWhile (fun x => rustIsWhitespace x = false)) = T := by
  induction T with
  | nil => rfl
  | cons t0 T' ih =>
      rw [List.takeWhile_cons, hTc t0 (List.mem_cons_self t0 T')]
      simp only [decide_True, if_true]
      rw [ih (fun c hc => hTc c (List.mem_cons_of_mem t0 hc))]

theorem dropWhile_nonws_append (T : List Char)
    (hTc : ∀ c ∈ T, rustIsWhitespace c = false) :
    ∀ rest : List Char,
      ((T ++ ' ' :: rest).dropWhile (fun x => rustIsWhitespace x = false)) = ' ' :: rest := by
  induction T with
  | nil =>
      intro rest
      rw [List.nil_append, List.dropWhile_cons]
      simp [rustIsWhitespace]
  | cons t0 T' ih =>
      intro rest
      rw [List.cons_append, List.dropWhile_cons, hTc t0 (List.mem_cons_self t0 T')]
      simp only [decide_True, if_true]
      exact ih (fun c hc => hTc c (List.mem_cons_of_mem t0 hc)) rest

theorem splitWsNth_0_token (T : List Char) (rest : List Char) (hT : T ≠ [])
    (hTc : ∀ c ∈ T, rustIsWhitespace c = false) :
    splitWsNth 0 (T ++ ' ' :: rest) = some T := by
  cases T with
  | nil => exact absurd rfl hT
  | cons t0 T' =>
      rw [splitWsNth_zero_eq
        (by rw [← List.cons_append]
            exact dropWhile_ws_of_head (t0 :: T') hT hTc (' ' :: rest))]
      rw [← List.cons_append]
      rw [takeWhile_nonws_append (t0 :: T') hTc rest]

theorem dropWhile_ws_cons {c : Char} (hc : rustIsWhitespace c = false) (t : List Char) :
    (c :: t).dropWhile rustIsWhitespace = c :: t := by
  rw [List.dropWhile_cons, hc]
  simp

theorem splitWsNth_0_last (T : List Char) (hT : T ≠ [])
    (hTc : ∀ c ∈ T, rustIsWhitespace c = false) :
    splitWsNth 0 T = some T := by
  cases T with
  | nil => exact absurd rfl hT
  | cons t0 T' =>
      rw [splitWsNth_zero_eq
        (dropWhile_ws_cons (hTc t0 (List.mem_cons_self t0 T')) T')]
      rw [takeWhile_nonws_self (t0 :: T') hTc]

/-- The third whitespace-separated token of `M ++ " " ++ U ++ " " ++ V`
(written right-nested). -/
theorem splitWsNth_2_tokens (M U V : List Char)
    (hM : M ≠ []) (hMc : ∀ c ∈ M, rustIsWhitespace c = false)
    (hU : U ≠ []) (hUc : ∀ c ∈ U, rustIsWhitespace c = false)
    (hV : V ≠ []) (hVc : ∀ c ∈ V, rustIsWhitespace c = false) :
    splitWsNth 2 (M ++ ' ' :: (U ++ ' ' :: V)) = some V := by
  have hsp : rustIsWhitespace ' ' = true := by decide
  cases M with
  | nil => exact absurd rfl hM
  | cons m0 M' =>
      rw [List.cons_append]
      rw [show (2 : Nat) = 1 + 1 from rfl]
      rw [@splitWsNth_succ_eq 1 _ m0 (M' ++ ' ' :: (U ++ ' ' :: V))
        (dropWhile_ws_cons (hMc m0 (List.mem_cons_self m0 M')) _)]
      rw [show (m0 :: (M' ++ ' ' :: (U ++ ' ' :: V))).dropWhile
            (fun x => rustIsWhitespace x = false)
          = ' ' :: (U ++ ' ' :: V) from by
        rw [← List.cons_append]
        exact dropWhile_nonws_append (m0 :: M') hMc (U ++ ' ' :: V)]
      cases U with
      | nil => exact absurd rfl hU
      | cons u0 U' =>
          rw [show (1 : Nat) = 0 + 1 from rfl]
          rw [@splitWsNth_succ_eq 0 _ u0 (U' ++ ' ' :: V)
            (by rw [List.dropWhile_cons, hsp]
                simp only [if_true]
                rw [List.cons_append]
                exact dropWhile_ws_cons (hUc u0 (List.mem_cons_self u0 U')) _)]
          rw [show (u0 :: (U' ++ ' ' :: V)).dropWhile (fun x => rustIsWhitespace x = false)
              = ' ' :: V from by
            rw [← List.cons_append]
            exact dropWhile_nonws_append (u0 :: U') hUc V]
          cases V with
          | nil => exact absurd rfl hV
          | cons v0 V' =>
              rw [@splitWsNth_zero_eq _ v0 V'
                (by rw [List.dropWhile_cons, hsp]
                    simp only [if_true]
                    exact dropWhile_ws_cons (hVc v0 (List.mem_cons_self v0 V')) _)]
              rw [takeWhile_nonws_self (v0 :: V') hVc]

theorem breakOn_cons_eq (pat : List Char) (c : Char) (rest : List Char) :
    breakOn pat (c :: rest)
      = if pat.isPrefixOf (c :: rest) then some ([], (c :: rest).drop pat.length)
        else
          match breakOn pat rest with
          | some (l, r) => some (c :: l, r)
          | none => none := rfl

theorem breakOn4_of_no_cr :
    ∀ (L : List Char), (∀ c ∈ L, ¬ c = '\r') → ∀ rest : List Char,
      breakOn ['\r', '\n', '\r', '\n'] (L ++ '\r' :: '\n' :: '\r' :: '\n' :: rest)
        = some (L, rest) := by
  intro L
  induction L with
  | nil =>
      intro _ rest
      rw [List.nil_append, breakOn_cons_eq]
      rw [if_pos (by simp [List.isPrefixOf])]
      rfl
  | cons c L ih =>
      intro h rest
      have hc : ¬ c = '\r' := h c (List.mem_cons_self c L)
      rw [List.cons_append, breakOn_cons_eq]
      rw [isPrefixOf_cons_of_ne (fun hh => hc hh.symm)]
      simp only [Bool.false_eq_true, if_false]
      rw [ih (fun x hx => h x (List.mem_cons_of_mem c hx)) rest]

theorem breakOn4_walk :
    ∀ (L : List Char), (∀ c ∈ L, ¬ c = '\r') →
      ∀ (d : Char), ¬ d = '\r' → ∀ t' : List Char,
        breakOn ['\r', '\n', '\r', '\n'] (L ++ '\r' :: '\n' :: d :: t')
          = match breakOn ['\r', '\n', '\r', '\n'] (d :: t') with
            | some (l, r) => some (L ++ '\r' :: '\n' :: l, r)
            | none => none := by
  intro L
  induction L with
  | nil =>
      intro _ d hd t'
      rw [List.nil_append, breakOn_cons_eq]
      have hd' : ¬ ('\r' : Char) = d := fun hh => hd hh.symm
      rw [if_neg (by simp [List.isPrefixOf, hd'])]
      rw [breakOn_cons_eq ['\r', '\n', '\r', '\n'] '\n' (d :: t')]
      rw [if_neg (by simp [List.isPrefixOf])]
      cases hbk : breakOn ['\r', '\n', '\r', '\n'] (d :: t') with
      | none => simp
      | some lr =>
          obtain ⟨l, r⟩ := lr
          simp
  | cons c L ih =>
      intro h d hd t'
      have hc : ¬ c = '\r' := h c (List.mem_cons_self c L)
      rw [List.cons_append, breakOn_cons_eq]
      rw [isPrefixOf_cons_of_ne (fun hh => hc hh.symm)]
      simp only [Bool.false_eq_true, if_false]
      rw [ih (fun x hx => h x (List.mem_cons_of_mem c hx)) d hd t']
      cases hbk : breakOn ['\r', '\n', '\r', '\n'] (d :: t') with
      | none => simp
      | some lr =>
          obtain ⟨l, r⟩ := lr
          simp

theorem breakOn4_join :
    ∀ (hs : List (List Char)), (∀ x ∈ hs, x ≠ [] ∧ ∀ c ∈ x, ¬ c = '\r') →
      ∀ body : List Char,
        breakOn ['\r', '\n', '\r', '\n']
            (joinCRLF hs ++ '\r' :: '\n' :: '\r' :: '\n' :: body)
          = some (joinCRLF hs, body) := by
  intro hs
  induction hs with
  | nil =>
      intro _ body
      exact breakOn4_of_no_cr [] (by simp) body
  | cons x t ih =>
      intro hwf body
      cases t with
      | nil => exact breakOn4_of_no_cr x (hwf x (List.mem_cons_self x [])).2 body
      | cons x2 t2 =>
          have hx2ne : x2 ≠ [] := (hwf x2 (by simp)).1
          obtain ⟨c2, x2', rfl⟩ : ∃ c2 x2', x2 = c2 :: x2' := by
            cases x2 with
            | nil => exact absurd rfl hx2ne
            | cons a b => exact ⟨a, b, rfl⟩
          have hc2 : ¬ c2 = '\r' :=
            (hwf (c2 :: x2') (by simp)).2 c2 (List.mem_cons_self c2 x2')
          obtain ⟨Jt, hJ⟩ : ∃ Jt, joinCRLF ((c2 :: x2') :: t2) = c2 :: Jt := by
            cases t2 with
            | nil => exact ⟨x2', rfl⟩
            | cons y t3 => exact ⟨x2' ++ '\r' :: '\n' :: joinCRLF (y :: t3), rfl⟩
          have hinner : breakOn ['\r', '\n', '\r', '\n']
              (c2 :: (Jt ++ '\r' :: '\n' :: '\r' :: '\n' :: body))
              = some (joinCRLF ((c2 :: x2') :: t2), body) := by
            rw [← List.cons_append, ← hJ]
            exact ih (fun y hy => hwf y (List.mem_cons_of_mem x hy)) body
          have hjx : joinCRLF (x :: (c2 :: x2') :: t2)
              = x ++ '\r' :: '\n' :: joinCRLF ((c2 :: x2') :: t2) := rfl
          rw [hjx, hJ]
          have hassoc : (x ++ '\r' :: '\n' :: (c2 :: Jt))
                ++ '\r' :: '\n' :: '\r' :: '\n' :: body
              = x ++ '\r' :: '\n' :: c2
                :: (Jt ++ '\r' :: '\n' :: '\r' :: '\n' :: body) := by
            simp
          rw [hassoc]
          rw [breakOn4_walk x (hwf x (by simp)).2 c2 hc2
            (Jt ++ '\r' :: '\n' :: '\r' :: '\n' :: body)]
          rw [hinner, hJ]

theorem splitOnCRLF_succ (f : Nat) (s : List Char) :
    splitOnCRLF (f + 1) s
      = match breakOn ['\r', '\n'] s with
        | none => [s]
        | some (l, r) => l :: splitOnCRLF f r := rfl

theorem joinCRLF_cons_cons (x y : List Char) (t : List (List Char)) :
    joinCRLF (x :: y :: t) = x ++ '\r' :: '\n' :: joinCRLF (y :: t) := rfl

theorem splitCRLF_join :
    ∀ (hs : List (List Char)), (∀ x ∈ hs, x ≠ [] ∧ ∀ c ∈ x, ¬ c = '\r') →
      hs ≠ [] → ∀ fuel, (joinCRLF hs).length < fuel →
        splitOnCRLF fuel (joinCRLF hs) = hs := by
  intro hs
  induction hs with
  | nil => intro _ h; exact absurd rfl h
  | cons x t ih =>
      intro hwf _ fuel hfuel
      cases t with
      | nil =>
          cases fuel with
          | zero => exact absurd hfuel (by omega)
          | succ f =>
              rw [show joinCRLF [x] = x from rfl] at hfuel ⊢
              rw [splitOnCRLF_succ]
              rw [breakOn_none_of_no_cr x (hwf x (List.mem_cons_self x [])).2]
      | cons x2 t2 =>
          cases fuel with
          | zero => exact absurd hfuel (by omega)
          | succ f =>
              rw [joinCRLF_cons_cons] at hfuel ⊢
              rw [splitOnCRLF_succ]
              rw [breakOn_crlf_of_no_cr x (hwf x (by simp)).2 (joinCRLF (x2 :: t2))]
              show x :: splitOnCRLF f (joinCRLF (x2 :: t2)) = x :: x2 :: t2
              have hlen : (joinCRLF (x2 :: t2)).length < f := by
                rw [List.length_append] at hfuel
                simp only [List.length_cons] at hfuel
                omega
              rw [ih (fun y hy => hwf y (List.mem_cons_of_mem x hy)) (by simp) f hlen]

theorem splitCRLF_join_filter (hs : List (List Char))
    (hwf : ∀ x ∈ hs, x ≠ [] ∧ ∀ c ∈ x, ¬ c = '\r') :
    (splitOnCRLF ((joinCRLF hs).length + 1) (joinCRLF hs)).filter headerKeep
      = hs.filter headerKeep := by
  cases hs with
  | nil => rfl
  | cons x t =>
      rw [splitCRLF_join (x :: t) hwf (by simp) ((joinCRLF (x :: t)).length + 1) (by omega)]

/-- **C6 (amended).** For a request `METHOD url VERSION\r\n<headers>\r\n\r\n<body>`
(whitespace-free non-empty tokens, header lines free of line breaks),
`prepare_forward_request` with `rewrite_path = some p` yields
`METHOD p VERSION\r\n` — the *original* version, not a forced `HTTP/1.1` —
followed by the headers with `Proxy-Authorization` and `Connection`
removed, an injected `Connection: close`, and the body unchanged. -/
theorem prepare_forward_request_rewrite (M U V p : List Char) (hs : List (List Char))
    (body : List Char)
    (hM : M ≠ []) (hMc : ∀ c ∈ M, rustIsWhitespace c = false)
    (hU : U ≠ []) (hUc : ∀ c ∈ U, rustIsWhitespace c = false)
    (hV : V ≠ []) (hVc : ∀ c ∈ V, rustIsWhitespace c = false)
    (hhs : ∀ x ∈ hs, x ≠ [] ∧ ∀ c ∈ x, ¬ c = '\r' ∧ ¬ c = '\n') :
    prepare_forward_request
        ((M ++ ' ' :: (U ++ ' ' :: V)) ++ '\r' :: '\n'
          :: (joinCRLF hs ++ '\r' :: '\n' :: '\r' :: '\n' :: body))
        (some p)
      = (M ++ ' ' :: (p ++ ' ' :: (V ++ '\r' :: '\n'
          :: (joinCRLF (hs.filter headerKeep)
            ++ (if (joinCRLF (hs.filter headerKeep)).isEmpty then [] else ['\r', '\n'])
            ++ "Connection: close\r\n\r\n".toList ++ body)))) := by
  have hnl : ∀ c : Char, rustIsWhitespace c = false → ¬ c = '\n' := by
    intro c h hh
    rw [hh] at h
    exact absurd h (by decide)
  have hcr : ∀ c : Char, rustIsWhitespace c = false → ¬ c = '\r' := by
    intro c h hh
    rw [hh] at h
    exact absurd h (by decide)
  have hFLnl : ∀ c ∈ M ++ ' ' :: (U ++ ' ' :: V), ¬ c = '\n' := by
    intro c hc
    rcases List.mem_append.mp hc with h | h
    · exact hnl c (hMc c h)
    · rcases List.mem_cons.mp h with rfl | h
      · decide
      · rcases List.mem_append.mp h with h | h
        · exact hnl c (hUc c h)
        · rcases List.mem_cons.mp h with rfl | h
          · decide
          · exact hnl c (hVc c h)
  have hFLcr : ∀ c ∈ M ++ ' ' :: (U ++ ' ' :: V), ¬ c = '\r' := by
    intro c hc
    rcases List.mem_append.mp hc with h | h
    · exact hcr c (hMc c h)
    · rcases List.mem_cons.mp h with rfl | h
      · decide
      · rcases List.mem_append.mp h with h | h
        · exact hcr c (hUc c h)
        · rcases List.mem_cons.mp h with rfl | h
          · decide
          · exact hcr c (hVc c h)
  have hhs' : ∀ x ∈ hs, x ≠ [] ∧ ∀ c ∈ x, ¬ c = '\r' :=
    fun x hx => ⟨(hhs x hx).1, fun c hc => ((hhs x hx).2 c hc).1⟩
  simp only [prepare_forward_request]
  rw [rustFirstLine_append _ _ hFLnl]
  rw [splitWsNth_0_token M (U ++ ' ' :: V) hM hMc]
  rw [splitWsNth_2_tokens M U V hM hMc hU hUc hV hVc]
  rw [breakOn_crlf_of_no_cr _ hFLcr _]
  simp only [Option.getD_some]
  rw [breakOn4_join hs hhs' body]
  simp only []
  rw [splitCRLF_join_filter hs hhs']
  by_cases hbody : (body : List Char).isEmpty
  · rw [if_pos hbody]
    have hb0 : body = [] := by
      cases body with
      | nil => rfl
      | cons a t => exact absurd hbody (by simp)
    subst hb0
    simp [List.append_assoc]
  · rw [if_neg hbody]
    simp [List.append_assoc]

/-- C6 counterexample: on `GET http://h/a HTTP/1.0`, the rewritten first line keeps
the original `HTTP/1.0` version (the code reuses token 2 of the request line),
contradicting the claimed forced `HTTP/1.1`. -/
theorem prepare_forward_keeps_version :
    prepare_forward_request "GET http://h/a HTTP/1.0\r\nHost: h\r\n\r\n".toList
        (some "/a".toList)
      = "GET /a HTTP/1.0\r\nHost: h\r\nConnection: close\r\n\r\n".toList ∧
    ¬ rustFirstLine (prepare_forward_request "GET http://h/a HTTP/1.0\r\nHost: h\r\n\r\n".toList
        (some "/a".toList)) = "GET /a HTTP/1.1".toList := by
  constructor
  · decide
  · decide

theorem prepare_forward_request_rewrite_witness :
    prepare_forward_request
        (("GET".toList ++ ' ' :: ("http://h/a".toList ++ ' ' :: "HTTP/1.0".toList)) ++ '\r' :: '\n'
          :: (joinCRLF ["Host: h".toList, "Proxy-Authorization: x".toList]
            ++ '\r' :: '\n' :: '\r' :: '\n' :: "B".toList))
        (some "/a".toList)
      = ("GET".toList ++ ' ' :: ("/a".toList ++ ' ' :: ("HTTP/1.0".toList ++ '\r' :: '\n'
          :: (joinCRLF (["Host: h".toList, "Proxy-Authorization: x".toList].filter headerKeep)
            ++ (if (joinCRLF (["Host: h".toList,
                  "Proxy-Authorization: x".toList].filter headerKeep)).isEmpty
                then [] else ['\r', '\n'])
            ++ "Connection: close\r\n\r\n".toList ++ "B".toList)))) :=
  prepare_forward_request_rewrite "GET".toList "http://h/a".toList "HTTP/1.0".toList
    "/a".toList ["Host: h".toList, "Proxy-Authorization: x".toList] "B".toList
    (by decide) (by decide) (by decide) (by decide) (by decide) (by decide) (by decide)

end Vulpini
